import Mathlib

/-!
# Canonical protobuf JSON codec: a shallow embedding

This file embeds the canonical protobuf JSON codec of the
`prost-canonical-serde` crates in Lean 4 and proves the specified
properties about it.

The embedding mirrors the Rust sources:
* `canonical/number.rs` — numeric conversions between JSON shapes and
  protobuf scalar domains;
* `canonical/scalar.rs` — per-scalar serialize/deserialize visitors;
* `canonical/enums.rs`  — open-enum adapters;
* `canonical/map.rs`    — map key conversion and map adapters;
* `canonical/wkt.rs`    — Timestamp and Duration codecs;
* `prost-canonical-serde-derive/src/lib.rs` — the per-message
  serialize/deserialize code generated by the derive macros,
  instantiated here at a representative message type.

External collaborators that the specification declares out of scope
(Rust `core` integer/float formatting and parsing, the `base64` crate,
the `chrono` RFC 3339 parser, `serde_json`'s token model) are modelled
explicitly; each model carries a doc comment saying what it stands for.

Machine integers are embedded as `Int`/`Nat` with explicit range
conditions; fallible code returns `Except Err`.
-/

/-- Errors: `CanonicalError` carries a free-form message, and serde
`custom` errors likewise; both are modelled as their message string. -/
abbrev Err := String

instance {ε α : Type} [DecidableEq ε] [DecidableEq α] : DecidableEq (Except ε α) := fun x y =>
  match x, y with
  | .ok a, .ok b =>
      if h : a = b then .isTrue (by rw [h]) else .isFalse (by intro hc; cases hc; exact h rfl)
  | .error a, .error b =>
      if h : a = b then .isTrue (by rw [h]) else .isFalse (by intro hc; cases hc; exact h rfl)
  | .ok _, .error _ => .isFalse (by intro hc; cases hc)
  | .error _, .ok _ => .isFalse (by intro hc; cases hc)

/-- Model of a JSON value as handed to serde visitors by `serde_json`.

`serde_json` represents a number token either as a native integer
(`u64`/`i64`, for integer literals that fit) or as an `f64` (literals
with a fraction or exponent): `Json.int` is the former, `Json.float`
the latter.  `Json.float` carries the exact decimal value of the token
as a rational; real `f64` tokens are the subset of dyadic rationals,
and every theorem below applies this constructor only at such values. -/
inductive Json where
  | null
  | bool (b : Bool)
  | int (n : Int)
  | float (q : ℚ)
  | str (s : String)
  | arr (xs : List Json)
  | obj (kvs : List (String × Json))
  deriving Repr

/-- Model of a Rust `f64` value: NaN, the two infinities, or a finite
value.  Finite `f64` values are dyadic rationals; the model stores the
exact rational value (so all NaN payloads and the two zero signs are
identified, which is invisible to the codec and to `==` on floats). -/
inductive F64 where
  | nan
  | inf
  | neginf
  | finite (q : ℚ)
  deriving Repr, DecidableEq

namespace F64

/-- `f64::is_finite`. -/
def isFinite : F64 → Bool
  | .finite _ => true
  | _ => false

/-- `f64::is_nan`. -/
def isNan : F64 → Bool
  | .nan => true
  | _ => false

/-- Rust `==` (IEEE equality) on `f64`: NaN compares unequal to
everything, including itself; finite values compare by value. -/
def rustEq : F64 → F64 → Bool
  | .inf, .inf => true
  | .neginf, .neginf => true
  | .finite q, .finite r => q = r
  | _, _ => false

/-- A model value that stands for an actual Rust `f64`: finite values
must be dyadic rationals (denominator a power of two). -/
def wf : F64 → Prop
  | .finite q => q.den = 2 ^ Nat.log2 q.den
  | _ => True

instance : DecidablePred wf := fun x => by
  cases x <;> simp [wf] <;> infer_instance

end F64

/-! ## Decimal digit strings

Rust's integer `to_string` and `FromStr` are external `core` code; they
are modelled here by an exact base-10 printer and parser over
`List Char`, which is their documented behaviour. -/

/-- The ASCII character of a decimal digit. -/
def digitChar (d : Nat) : Char := Char.ofNat (48 + d)

/-- Numeric value of an ASCII character (digit value when it is one). -/
def charVal (c : Char) : Nat := c.toNat - 48

/-- Whether a character is an ASCII decimal digit. -/
def isDigitChar (c : Char) : Bool := 48 ≤ c.toNat && c.toNat ≤ 57

theorem charVal_digitChar {d : Nat} (h : d < 10) : charVal (digitChar d) = d := by
  interval_cases d <;> rfl

theorem isDigitChar_digitChar {d : Nat} (h : d < 10) :
    isDigitChar (digitChar d) = true := by
  interval_cases d <;> rfl

/-- Little-endian base-10 digits with explicit fuel (so that the
kernel can evaluate it; the fuel argument strictly decreases). -/
def digitsAuxFuel : Nat → Nat → List Nat
  | 0, _ => []
  | fuel + 1, n => if n = 0 then [] else n % 10 :: digitsAuxFuel fuel (n / 10)

/-- Little-endian base-10 digits of `n`. -/
def natDigits (n : Nat) : List Nat := digitsAuxFuel n n

theorem digitsAuxFuel_eq (fuel n : Nat) (h : n ≤ fuel) :
    digitsAuxFuel fuel n = Nat.digits 10 n := by
  induction fuel generalizing n with
  | zero =>
      interval_cases n
      simp [digitsAuxFuel]
  | succ fuel ih =>
      by_cases h0 : n = 0
      · subst h0
        simp [digitsAuxFuel]
      · simp only [digitsAuxFuel, if_neg h0]
        rw [ih (n / 10) (by omega)]
        rw [Nat.digits_def' (by norm_num : (1 : Nat) < 10) (Nat.pos_of_ne_zero h0)]

theorem natDigits_eq (n : Nat) : natDigits n = Nat.digits 10 n :=
  digitsAuxFuel_eq n n le_rfl

/-- Base-10 digit characters of `n`, most significant first (the text
produced by Rust's unsigned integer `Display`). -/
def natRepr (n : Nat) : List Char :=
  if n = 0 then ['0'] else ((natDigits n).reverse).map digitChar

/-- Value of a big-endian digit-character list. -/
def digitsVal (cs : List Char) : Nat :=
  cs.foldl (fun a c => a * 10 + charVal c) 0

/-- Parses a nonempty all-digit character list; `none` otherwise
(model of the digit-consuming core of Rust's integer `FromStr`). -/
def parseNatChars (cs : List Char) : Option Nat :=
  if cs ≠ [] ∧ cs.all isDigitChar then some (digitsVal cs) else none

theorem digitsVal_reverse (ds : List Nat) (h : ∀ d ∈ ds, d < 10) :
    digitsVal ((ds.reverse).map digitChar) = Nat.ofDigits 10 ds := by
  induction ds with
  | nil => rfl
  | cons d ds ih =>
    have hd : d < 10 := h d (by simp)
    have hds : ∀ x ∈ ds, x < 10 := fun x hx => h x (by simp [hx])
    simp only [List.reverse_cons, List.map_append, List.map_cons, List.map_nil]
    simp only [digitsVal, List.foldl_append, List.foldl_cons, List.foldl_nil]
    have := ih hds
    simp only [digitsVal] at this
    rw [this, Nat.ofDigits_cons, charVal_digitChar hd]
    ring

theorem parseNatChars_natRepr (n : Nat) : parseNatChars (natRepr n) = some n := by
  by_cases h0 : n = 0
  · subst h0; rfl
  · have hne : Nat.digits 10 n ≠ [] := Nat.digits_ne_nil_iff_ne_zero.mpr h0
    have hlt : ∀ d ∈ Nat.digits 10 n, d < 10 :=
      fun d hd => Nat.digits_lt_base (by norm_num) hd
    unfold natRepr
    rw [if_neg h0, natDigits_eq]
    unfold parseNatChars
    rw [if_pos]
    · rw [digitsVal_reverse _ hlt, Nat.ofDigits_digits]
    · constructor
      · simp [hne]
      · rw [List.all_eq_true]
        intro c hc
        simp only [List.mem_map, List.mem_reverse] at hc
        obtain ⟨d, hd, rfl⟩ := hc
        exact isDigitChar_digitChar (hlt d hd)

/-- Model of Rust `u64`-style `FromStr` with inclusive upper bound
`max`: an optional `+` sign, then one or more digits, overflow
rejected. -/
def rustParseUCore (max : Nat) (cs : List Char) : Option Nat :=
  match parseNatChars cs with
  | some v => if v ≤ max then some v else none
  | none => none

def rustParseU (max : Nat) (cs : List Char) : Option Nat :=
  match cs with
  | [] => none
  | c :: rest => if c = '+' then rustParseUCore max rest else rustParseUCore max (c :: rest)

def rustParseIPos (hi : Int) (cs : List Char) : Option Int :=
  match parseNatChars cs with
  | some v => if (v : Int) ≤ hi then some (v : Int) else none
  | none => none

/-- Model of Rust signed-integer `FromStr` with inclusive bounds:
an optional sign, then one or more digits, overflow rejected. -/
def rustParseI (lo hi : Int) (cs : List Char) : Option Int :=
  match cs with
  | [] => none
  | c :: rest =>
      if c = '-' then
        match parseNatChars rest with
        | some v => if lo ≤ -(v : Int) then some (-(v : Int)) else none
        | none => none
      else if c = '+' then rustParseIPos hi rest
      else rustParseIPos hi (c :: rest)

/-- Text of a Rust signed integer's `Display` (`to_string`). -/
def intRepr (n : Int) : List Char :=
  if n < 0 then '-' :: natRepr n.natAbs else natRepr n.toNat

theorem natRepr_ne_nil (n : Nat) : natRepr n ≠ [] := by
  unfold natRepr
  split
  · simp
  · have hne : Nat.digits 10 n ≠ [] := Nat.digits_ne_nil_iff_ne_zero.mpr (by assumption)
    rw [natDigits_eq]
    simp [hne]

theorem natRepr_head_digit (n : Nat) :
    ∀ c ∈ natRepr n, isDigitChar c = true := by
  intro c hc
  unfold natRepr at hc
  split at hc
  · simp at hc; subst hc; rfl
  · rw [natDigits_eq] at hc
    simp only [List.mem_map, List.mem_reverse] at hc
    obtain ⟨d, hd, rfl⟩ := hc
    exact isDigitChar_digitChar (Nat.digits_lt_base (by norm_num) hd)

theorem rustParseU_natRepr {max n : Nat} (h : n ≤ max) :
    rustParseU max (natRepr n) = some n := by
  have hp := parseNatChars_natRepr n
  cases hnr : natRepr n with
  | nil => exact absurd hnr (natRepr_ne_nil n)
  | cons c rest =>
    have hc : isDigitChar c = true := natRepr_head_digit n c (by rw [hnr]; simp)
    have hcp : c ≠ '+' := by rintro rfl; simp [isDigitChar] at hc
    rw [hnr] at hp
    simp only [rustParseU, if_neg hcp, rustParseUCore, hp, if_pos h]

theorem rustParseI_intRepr {lo hi n : Int} (hlo : lo ≤ n) (hhi : n ≤ hi) :
    rustParseI lo hi (intRepr n) = some n := by
  unfold intRepr
  by_cases hneg : n < 0
  · rw [if_pos hneg]
    have habs : -((n.natAbs : Int)) = n := by omega
    simp only [rustParseI, if_pos rfl, parseNatChars_natRepr, habs]
    rw [if_pos hlo]
    simp
  · rw [if_neg hneg]
    push_neg at hneg
    have habs : ((n.toNat : Int)) = n := Int.toNat_of_nonneg hneg
    cases hnr : natRepr n.toNat with
    | nil => exact absurd hnr (natRepr_ne_nil _)
    | cons c rest =>
      have hc : isDigitChar c = true := natRepr_head_digit _ c (by rw [hnr]; simp)
      have hcm : c ≠ '-' := by rintro rfl; simp [isDigitChar] at hc
      have hcp : c ≠ '+' := by rintro rfl; simp [isDigitChar] at hc
      have hp := parseNatChars_natRepr n.toNat
      rw [hnr] at hp
      simp only [rustParseI, if_neg hcm, if_neg hcp, rustParseIPos, hp, habs, if_pos hhi]

theorem digitsVal_natRepr (n : Nat) : digitsVal (natRepr n) = n := by
  have h := parseNatChars_natRepr n
  unfold parseNatChars at h
  split at h
  · exact Option.some.inj h
  · exact absurd h (by simp)

theorem natRepr_all_digits (n : Nat) : (natRepr n).all isDigitChar = true := by
  rw [List.all_eq_true]
  exact natRepr_head_digit n

theorem digitsVal_replicate_zero (k : Nat) (cs : List Char) :
    digitsVal (List.replicate k '0' ++ cs) = digitsVal cs := by
  induction k with
  | zero => rfl
  | succ k ih =>
    simp only [List.replicate_succ, List.cons_append]
    unfold digitsVal at *
    simpa using ih

/-! ## Model of `f64` text formatting and parsing

Rust's `f64` `Display` prints, for a finite value, the shortest decimal
string that parses back to the same value; `FromStr` parses decimal and
scientific notation, special literals, and overflows to infinity.  The
model prints the *exact* decimal expansion (finite `f64` values are
dyadic rationals, so it exists) and parses the exact decimal value;
display and model-parse round-trip exactly, as the real pair does.  The
real parser rounds to the nearest `f64`; the model keeps the exact
rational, so the two agree on every string whose exact value is an
`f64` (all inputs used in this development). -/

/-- Largest finite `f64` value (stated via `Nat` powers so that the
kernel can evaluate comparisons against it). -/
def maxF64 : ℚ := ((2 ^ 1024 - 2 ^ 971 : Nat) : ℚ)

/-- ASCII lower-casing (model of the case folding in Rust's float
parser). -/
def asciiLower (c : Char) : Char :=
  if 65 ≤ c.toNat ∧ c.toNat ≤ 90 then Char.ofNat (c.toNat + 32) else c

/-- Splits a character list at the first character satisfying `p`:
returns the prefix and, when found, the remainder after the split
character. -/
def splitFirst (p : Char → Bool) : List Char → List Char × Option (List Char)
  | [] => ([], none)
  | c :: cs =>
      if p c then ([], some cs)
      else
        let r := splitFirst p cs
        (c :: r.1, r.2)

theorem splitFirst_of_forall_not (p : Char → Bool) (cs : List Char)
    (h : ∀ c ∈ cs, p c = false) : splitFirst p cs = (cs, none) := by
  induction cs with
  | nil => rfl
  | cons c cs ih =>
    have hc : p c = false := h c (by simp)
    simp only [splitFirst, hc, Bool.false_eq_true, if_false]
    rw [ih (fun x hx => h x (by simp [hx]))]

theorem splitFirst_append (p : Char → Bool) (l1 l2 : List Char) (d : Char)
    (h1 : ∀ c ∈ l1, p c = false) (hd : p d = true) :
    splitFirst p (l1 ++ d :: l2) = (l1, some l2) := by
  induction l1 with
  | nil => simp [splitFirst, hd]
  | cons c cs ih =>
    have hc : p c = false := h1 c (by simp)
    have := ih (fun x hx => h1 x (by simp [hx]))
    simp only [List.cons_append, splitFirst, hc, Bool.false_eq_true, if_false]
    rw [show cs.append (d :: l2) = cs ++ d :: l2 from rfl, this]

/-- Parses an optional exponent part (sign and digits) of a float
literal. -/
def parseExpChars (cs : List Char) : Option Int :=
  rustParseI (-(10 ^ 18)) (10 ^ 18) cs

/-- Whether a character starts an exponent part. -/
def isExpChar (c : Char) : Bool := c = 'e' || c = 'E'

/-- The unsigned decimal core of the float parser model: mantissa
`Digit* ('.' Digit*)?` with at least one digit, then an optional
`[eE] Sign? Digit+` exponent; yields the exact value. -/
def parseF64Decimal (rest : List Char) : Option ℚ :=
  let me := splitFirst isExpChar rest
  let ipf := splitFirst (fun c => c = '.') me.1
  let ip := ipf.1
  let fp := ipf.2.getD []
  if ip = [] ∧ fp = [] then none
  else if ¬(ip.all isDigitChar ∧ fp.all isDigitChar) then none
  else
    match (match me.2 with | none => some 0 | some es => parseExpChars es) with
    | none => none
    | some e =>
        some (((digitsVal ip : ℚ) + (digitsVal fp : ℚ) / 10 ^ fp.length) * 10 ^ (e : Int))

/-- Model of Rust `str::parse::<f64>` returning the exact decimal value
(see the section comment): special literals case-insensitively, then a
signed decimal, overflowing to the infinities. -/
def parseF64Chars (cs : List Char) : Option F64 :=
  match cs with
  | [] => none
  | c0 :: r0 =>
      let neg := c0 = '-'
      let rest := if c0 = '-' ∨ c0 = '+' then r0 else c0 :: r0
      let low := rest.map asciiLower
      if low = ['i', 'n', 'f'] ∨ low = ['i', 'n', 'f', 'i', 'n', 'i', 't', 'y'] then
        some (if neg then .neginf else .inf)
      else if low = ['n', 'a', 'n'] then some .nan
      else
        match parseF64Decimal rest with
        | none => none
        | some mag =>
            let v : ℚ := if neg then -mag else mag
            if maxF64 < |v| then some (if neg then .neginf else .inf)
            else some (.finite v)

/-- Fractional digit characters of `fr` left-padded with zeros to width
`k`. -/
def fracChars (k fr : Nat) : List Char :=
  List.replicate (k - (natRepr fr).length) '0' ++ natRepr fr

/-- The digits (integer part, point, fractional part) of the exact
decimal expansion of a dyadic rational, without the sign. -/
def dyadicBody (q : ℚ) : List Char :=
  let k := Nat.log2 q.den
  let m := q.num.natAbs * 5 ^ k
  natRepr (m / 10 ^ k) ++ (if k = 0 then [] else '.' :: fracChars k (m % 10 ^ k))

/-- Model of Rust `f64` `Display` on a finite (dyadic) value: the exact
decimal expansion, with a leading `-` for negatives (see the section
comment). -/
def dyadicRepr (q : ℚ) : List Char :=
  if q.num < 0 then '-' :: dyadicBody q else dyadicBody q

theorem natRepr_length_le {n k : Nat} (hk : 1 ≤ k) (h : n < 10 ^ k) :
    (natRepr n).length ≤ k := by
  unfold natRepr
  split
  · simpa using hk
  · rw [natDigits_eq, List.length_map, List.length_reverse,
      Nat.digits_len 10 n (by norm_num) (by assumption)]
    have := Nat.log_lt_of_lt_pow (by assumption) h
    omega

theorem digitsVal_fracChars {k fr : Nat} (h : fr < 10 ^ k) (hk : 1 ≤ k) :
    digitsVal (fracChars k fr) = fr := by
  unfold fracChars
  rw [digitsVal_replicate_zero, digitsVal_natRepr]

theorem length_fracChars {k fr : Nat} (h : fr < 10 ^ k) (hk : 1 ≤ k) :
    (fracChars k fr).length = k := by
  unfold fracChars
  rw [List.length_append, List.length_replicate]
  have := natRepr_length_le hk h
  omega

theorem fracChars_all_digits (k fr : Nat) :
    ∀ c ∈ fracChars k fr, isDigitChar c = true := by
  intro c hc
  unfold fracChars at hc
  rcases List.mem_append.mp hc with h | h
  · rw [List.eq_of_mem_replicate h]; rfl
  · exact natRepr_head_digit _ c h

theorem dyadicBody_chars (q : ℚ) :
    ∀ c ∈ dyadicBody q, isDigitChar c = true ∨ c = '.' := by
  intro c hc
  unfold dyadicBody at hc
  rcases List.mem_append.mp hc with h | h
  · exact Or.inl (natRepr_head_digit _ c h)
  · split at h
    · simp at h
    · rcases List.mem_cons.mp h with h | h
      · exact Or.inr h
      · exact Or.inl (fracChars_all_digits _ _ c h)

theorem isDigitChar_not_exp {c : Char} (h : isDigitChar c = true) :
    isExpChar c = false := by
  simp only [isDigitChar, Bool.and_eq_true, decide_eq_true_eq] at h
  simp only [isExpChar, Bool.or_eq_false_iff, decide_eq_false_iff_not]
  constructor
  · rintro rfl; exact absurd h.2 (by decide)
  · rintro rfl; exact absurd h.2 (by decide)

theorem dot_not_exp : isExpChar '.' = false := by decide

theorem digitsVal_nil : digitsVal [] = 0 := rfl

theorem abs_rat_eq_natAbs_div (q : ℚ) : |q| = (q.num.natAbs : ℚ) / (q.den : ℚ) := by
  conv_lhs => rw [← Rat.num_div_den q]
  rw [abs_div, abs_of_pos (show (0 : ℚ) < (q.den : ℚ) by positivity)]
  congr 1
  rw [Int.cast_natAbs, Int.cast_abs]

theorem parseF64Decimal_dyadicBody (q : ℚ) (hden : q.den = 2 ^ Nat.log2 q.den) :
    parseF64Decimal (dyadicBody q) = some |q| := by
  set k := Nat.log2 q.den with hk
  set m := q.num.natAbs * 5 ^ k with hm
  have hbody : dyadicBody q =
      natRepr (m / 10 ^ k) ++ (if k = 0 then [] else '.' :: fracChars k (m % 10 ^ k)) := rfl
  have hipdot : ∀ c ∈ natRepr (m / 10 ^ k), (fun c => decide (c = '.')) c = false := by
    intro c hc
    have := natRepr_head_digit _ c hc
    simp only [decide_eq_false_iff_not]
    rintro rfl
    simp [isDigitChar] at this
  have hqabs : |q| = (m : ℚ) / 10 ^ k := by
    rw [abs_rat_eq_natAbs_div, hm, hden]
    push_cast
    rw [show (10 : ℚ) ^ k = 2 ^ k * 5 ^ k by
      rw [show (10 : ℚ) = 2 * 5 by norm_num, mul_pow]]
    have h5 : (5 : ℚ) ^ k ≠ 0 := by positivity
    have h2 : (2 : ℚ) ^ k ≠ 0 := by positivity
    field_simp
    ring
  by_cases hk0 : k = 0
  · have hbody0 : dyadicBody q = natRepr m := by
      rw [hbody, hk0]
      simp
    rw [hbody0]
    have hnoexp : ∀ c ∈ natRepr m, isExpChar c = false :=
      fun c hc => isDigitChar_not_exp (natRepr_head_digit _ c hc)
    unfold parseF64Decimal
    rw [splitFirst_of_forall_not _ _ hnoexp]
    simp only []
    rw [splitFirst_of_forall_not _ _ (by
      rw [hk0] at hipdot
      simpa using hipdot)]
    simp only [Option.getD_none]
    rw [if_neg (by simp [natRepr_ne_nil])]
    rw [if_neg (by simp [natRepr_all_digits])]
    simp only [digitsVal_natRepr, digitsVal_nil]
    rw [hqabs, hk0]
    norm_num
  · have hk1 : 1 ≤ k := Nat.one_le_iff_ne_zero.mpr hk0
    have hfr : m % 10 ^ k < 10 ^ k := Nat.mod_lt _ (by positivity)
    have hbody1 : dyadicBody q = natRepr (m / 10 ^ k) ++ '.' :: fracChars k (m % 10 ^ k) := by
      rw [hbody, if_neg hk0]
    rw [hbody1]
    have hnoexp : ∀ c ∈ natRepr (m / 10 ^ k) ++ '.' :: fracChars k (m % 10 ^ k),
        isExpChar c = false := by
      intro c hc
      have : isDigitChar c = true ∨ c = '.' := by
        rw [← hbody1] at hc
        exact dyadicBody_chars q c hc
      rcases this with h | h
      · exact isDigitChar_not_exp h
      · rw [h]; exact dot_not_exp
    unfold parseF64Decimal
    rw [splitFirst_of_forall_not _ _ hnoexp]
    simp only []
    rw [splitFirst_append _ _ _ _ hipdot (by simp)]
    simp only [Option.getD_some]
    rw [if_neg (by simp [natRepr_ne_nil])]
    rw [if_neg (by
      simp only [not_not]
      exact ⟨natRepr_all_digits _, List.all_eq_true.mpr (fracChars_all_digits _ _)⟩)]
    simp only [digitsVal_natRepr, digitsVal_fracChars hfr hk1, length_fracChars hfr hk1]
    rw [hqabs]
    have hsplit : 10 ^ k * (m / 10 ^ k) + m % 10 ^ k = m := Nat.div_add_mod m (10 ^ k)
    congr 1
    rw [zpow_zero, mul_one]
    have hdm : ((10 : ℚ) ^ k) ≠ 0 := by positivity
    field_simp
    push_cast
    conv_rhs => rw [← hsplit]
    push_cast
    ring

theorem asciiLower_digit {c : Char} (h : isDigitChar c = true) : asciiLower c = c := by
  simp only [isDigitChar, Bool.and_eq_true, decide_eq_true_eq] at h
  unfold asciiLower
  rw [if_neg]
  omega

theorem dyadicBody_cons (q : ℚ) :
    ∃ c r, dyadicBody q = c :: r ∧ isDigitChar c = true := by
  have h1 : dyadicBody q =
      natRepr (q.num.natAbs * 5 ^ Nat.log2 q.den / 10 ^ Nat.log2 q.den) ++
        (if Nat.log2 q.den = 0 then []
         else '.' :: fracChars (Nat.log2 q.den)
            (q.num.natAbs * 5 ^ Nat.log2 q.den % 10 ^ Nat.log2 q.den)) := rfl
  cases hnr : natRepr (q.num.natAbs * 5 ^ Nat.log2 q.den / 10 ^ Nat.log2 q.den) with
  | nil => exact absurd hnr (natRepr_ne_nil _)
  | cons c r =>
    refine ⟨c, r ++ (if Nat.log2 q.den = 0 then []
         else '.' :: fracChars (Nat.log2 q.den)
            (q.num.natAbs * 5 ^ Nat.log2 q.den % 10 ^ Nat.log2 q.den)),
      ?_, natRepr_head_digit _ c (by rw [hnr]; simp)⟩
    rw [h1, hnr, List.cons_append]

theorem map_lower_ne_special {c : Char} {r : List Char} (h : isDigitChar c = true) :
    ¬((c :: r).map asciiLower = ['i', 'n', 'f'] ∨
      (c :: r).map asciiLower = ['i', 'n', 'f', 'i', 'n', 'i', 't', 'y']) ∧
    ¬((c :: r).map asciiLower = ['n', 'a', 'n']) := by
  simp only [List.map_cons, asciiLower_digit h]
  constructor
  · rintro (heq | heq) <;>
    · have hc := (List.cons.injEq .. ▸ heq).1
      subst hc
      simp [isDigitChar] at h
  · intro heq
    have hc := (List.cons.injEq .. ▸ heq).1
    subst hc
    simp [isDigitChar] at h

theorem parseF64Chars_dyadicRepr (q : ℚ) (hden : q.den = 2 ^ Nat.log2 q.den)
    (hmax : |q| ≤ maxF64) :
    parseF64Chars (dyadicRepr q) = some (.finite q) := by
  obtain ⟨c, r, hcr, hdigit⟩ := dyadicBody_cons q
  have hdec := parseF64Decimal_dyadicBody q hden
  have hspec := map_lower_ne_special (r := r) hdigit
  unfold dyadicRepr
  by_cases hneg : q.num < 0
  · rw [if_pos hneg, hcr]
    have hqneg : q < 0 := by
      by_contra hcon
      push_neg at hcon
      exact absurd (Rat.num_nonneg.mpr hcon) (not_le.mpr hneg)
    simp only [parseF64Chars]
    simp only [eq_self_iff_true, true_or, if_true]
    rw [if_neg hspec.1, if_neg hspec.2, ← hcr]
    simp only [hdec]
    rw [if_neg (by rw [abs_neg, abs_abs]; exact not_lt.mpr hmax)]
    rw [abs_of_neg hqneg, neg_neg]
  · rw [if_neg hneg, hcr]
    push_neg at hneg
    have hqpos : 0 ≤ q := Rat.num_nonneg.mp hneg
    have hcm : ¬(c = '-') := by
      rintro rfl
      simp [isDigitChar] at hdigit
    have hcp : ¬(c = '+') := by
      rintro rfl
      simp [isDigitChar] at hdigit
    simp only [parseF64Chars]
    simp only [eq_false hcm, eq_false hcp, false_or, if_false]
    rw [if_neg hspec.1, if_neg hspec.2, ← hcr]
    simp only [hdec]
    rw [if_neg (by rw [abs_abs]; exact not_lt.mpr hmax)]
    rw [abs_of_nonneg hqpos]

/-! ## `canonical/number.rs` -/

/-- `is_integral` (number.rs): finite and with zero fractional part. -/
def is_integral (value : F64) : Bool :=
  match value with
  | .finite q => q.den = 1
  | _ => false

/-- `parse_float` (number.rs): the three special literals, else a
finite `f64` parse. -/
def parse_float (value : String) : Except Err F64 :=
  if value = "NaN" then .ok .nan
  else if value = "Infinity" then .ok .inf
  else if value = "-Infinity" then .ok .neginf
  else
    match parseF64Chars value.data with
    | none => .error "invalid f64 string"
    | some parsed => if parsed.isFinite then .ok parsed else .error "float out of range"

/-- `i32_from_str` (number.rs): native base-10 parse first, then a
float parse followed by the integrality and range checks. -/
def i32_from_str (value : String) : Except Err Int :=
  match rustParseI (-2147483648) 2147483647 value.data with
  | some parsed => .ok parsed
  | none =>
      match parse_float value with
      | .error _ => .error "invalid i32 string"
      | .ok parsed =>
          match parsed with
          | .finite q =>
              if q.den ≠ 1 then .error "invalid i32 string"
              else if q < -2147483648 ∨ q > 2147483647 then .error "i32 out of range"
              else .ok q.num
          | _ => .error "invalid i32 string"

/-- `u32_from_str` (number.rs): native base-10 parse only. -/
def u32_from_str (value : String) : Except Err Nat :=
  match rustParseU 4294967295 value.data with
  | some parsed => .ok parsed
  | none => .error "invalid u32 string"

/-- `i64_from_str` (number.rs): native base-10 parse only. -/
def i64_from_str (value : String) : Except Err Int :=
  match rustParseI (-9223372036854775808) 9223372036854775807 value.data with
  | some parsed => .ok parsed
  | none => .error "invalid i64 string"

/-- `u64_from_str` (number.rs): native base-10 parse only. -/
def u64_from_str (value : String) : Except Err Nat :=
  match rustParseU 18446744073709551615 value.data with
  | some parsed => .ok parsed
  | none => .error "invalid u64 string"

/-- `i32_from_f64` (number.rs). -/
def i32_from_f64 (value : F64) : Except Err Int :=
  match value with
  | .finite q =>
      if q.den ≠ 1 then .error "invalid i32"
      else if q < -2147483648 ∨ q > 2147483647 then .error "i32 out of range"
      else .ok q.num
  | _ => .error "invalid i32"

/-- `u32_from_f64` (number.rs). -/
def u32_from_f64 (value : F64) : Except Err Nat :=
  match value with
  | .finite q =>
      if q.den ≠ 1 then .error "invalid u32"
      else if q < 0 ∨ q > 4294967295 then .error "u32 out of range"
      else .ok q.num.toNat
  | _ => .error "invalid u32"

/-- `i64_from_f64` (number.rs): restricted to the `f64`-exact safe
range `[-2^53, 2^53]`. -/
def i64_from_f64 (value : F64) : Except Err Int :=
  match value with
  | .finite q =>
      if q.den ≠ 1 then .error "invalid i64"
      else if q < -9007199254740992 ∨ q > 9007199254740992 then .error "i64 out of range"
      else .ok q.num
  | _ => .error "invalid i64"

/-- `u64_from_f64` (number.rs): restricted to `[0, 2^54]`. -/
def u64_from_f64 (value : F64) : Except Err Nat :=
  match value with
  | .finite q =>
      if q.den ≠ 1 then .error "invalid u64"
      else if q < 0 ∨ q > 18014398509481984 then .error "u64 out of range"
      else .ok q.num.toNat
  | _ => .error "invalid u64"

/-- `f64_from_i64_exact` (number.rs). -/
def f64_from_i64_exact (value : Int) : Except Err F64 :=
  if value < -9007199254740992 ∨ value > 9007199254740992 then
    .error "integer out of range for f64"
  else .ok (.finite (value : ℚ))

/-- `f64_from_u64_exact` (number.rs). -/
def f64_from_u64_exact (value : Nat) : Except Err F64 :=
  if value > 18014398509481984 then .error "integer out of range for f64"
  else .ok (.finite (value : ℚ))

/-- `serialize_float64` (number.rs): finite values as their `Display`
text (serde `collect_str` makes this a JSON string), non-finite values
as the three special strings. -/
def serialize_float64 (value : F64) : Json :=
  match value with
  | .finite q => .str (String.mk (dyadicRepr q))
  | .nan => .str "NaN"
  | .inf => .str "Infinity"
  | .neginf => .str "-Infinity"

theorem dyadicRepr_head (q : ℚ) :
    ∃ c r, dyadicRepr q = c :: r ∧ (isDigitChar c = true ∨ c = '-') := by
  obtain ⟨c, r, hcr, hdig⟩ := dyadicBody_cons q
  unfold dyadicRepr
  by_cases hneg : q.num < 0
  · exact ⟨'-', dyadicBody q, by rw [if_pos hneg], Or.inr rfl⟩
  · exact ⟨c, r, by rw [if_neg hneg, hcr], Or.inl hdig⟩

theorem parse_float_dyadic (q : ℚ) (hden : q.den = 2 ^ Nat.log2 q.den)
    (hmax : |q| ≤ maxF64) :
    parse_float (String.mk (dyadicRepr q)) = .ok (.finite q) := by
  obtain ⟨c, r, hcr, hc⟩ := dyadicRepr_head q
  have hdigit_or : (isDigitChar c = true ∨ c = '-') := hc
  have hnan : String.mk (dyadicRepr q) ≠ "NaN" := by
    intro h
    have hdata : dyadicRepr q = ['N', 'a', 'N'] := congrArg String.data h
    rw [hcr] at hdata
    have hhead : c = 'N' := (List.cons.injEq .. ▸ hdata).1
    rcases hdigit_or with hd | hd
    · rw [hhead] at hd; simp [isDigitChar] at hd
    · rw [hhead] at hd; exact absurd hd (by decide)
  have hinf : String.mk (dyadicRepr q) ≠ "Infinity" := by
    intro h
    have hdata : dyadicRepr q = "Infinity".data := congrArg String.data h
    rw [hcr] at hdata
    have hhead : c = 'I' := (List.cons.injEq .. ▸ hdata).1
    rcases hdigit_or with hd | hd
    · rw [hhead] at hd; simp [isDigitChar] at hd
    · rw [hhead] at hd; exact absurd hd (by decide)
  have hninf : String.mk (dyadicRepr q) ≠ "-Infinity" := by
    intro h
    have hdata : dyadicRepr q = "-Infinity".data := congrArg String.data h
    unfold dyadicRepr at hdata
    by_cases hneg : q.num < 0
    · rw [if_pos hneg] at hdata
      obtain ⟨c2, r2, hcr2, hdig2⟩ := dyadicBody_cons q
      have hbody : dyadicBody q = "Infinity".data := (List.cons.injEq .. ▸ hdata).2
      rw [hcr2] at hbody
      have hhead : c2 = 'I' := (List.cons.injEq .. ▸ hbody).1
      rw [hhead] at hdig2
      simp [isDigitChar] at hdig2
    · rw [if_neg hneg] at hdata
      obtain ⟨c2, r2, hcr2, hdig2⟩ := dyadicBody_cons q
      rw [hcr2] at hdata
      have hhead : c2 = '-' := (List.cons.injEq .. ▸ hdata).1
      rw [hhead] at hdig2
      simp [isDigitChar] at hdig2
  unfold parse_float
  rw [if_neg hnan, if_neg hinf, if_neg hninf]
  have : (String.mk (dyadicRepr q)).data = dyadicRepr q := rfl
  rw [this, parseF64Chars_dyadicRepr q hden hmax]
  rfl

/-! ## Base64 (model of the `base64` crate's `BASE64_STANDARD` engine:
standard alphabet, `=` padding, canonical-padding-checking decode) -/

/-- Standard-alphabet character of a sextet. -/
def b64Char (d : Nat) : Char :=
  if d < 26 then Char.ofNat (65 + d)
  else if d < 52 then Char.ofNat (97 + (d - 26))
  else if d < 62 then Char.ofNat (48 + (d - 52))
  else if d = 62 then '+'
  else '/'

/-- Sextet of a standard-alphabet character. -/
def b64Val (c : Char) : Option Nat :=
  let n := c.toNat
  if 65 ≤ n ∧ n ≤ 90 then some (n - 65)
  else if 97 ≤ n ∧ n ≤ 122 then some (n - 97 + 26)
  else if 48 ≤ n ∧ n ≤ 57 then some (n - 48 + 52)
  else if c = '+' then some 62
  else if c = '/' then some 63
  else none

theorem b64Val_b64Char {d : Nat} (h : d < 64) : b64Val (b64Char d) = some d := by
  interval_cases d <;> rfl

/-- Base64 encoding with padding (`BASE64_STANDARD.encode`). -/
def b64Encode : List Nat → List Char
  | [] => []
  | [a] => [b64Char (a / 4), b64Char (a % 4 * 16), '=', '=']
  | [a, b] => [b64Char (a / 4), b64Char (a % 4 * 16 + b / 16), b64Char (b % 16 * 4), '=']
  | a :: b :: c :: rest =>
      b64Char (a / 4) :: b64Char (a % 4 * 16 + b / 16) :: b64Char (b % 16 * 4 + c / 64) ::
        b64Char (c % 64) :: b64Encode rest

/-- Base64 decoding (`BASE64_STANDARD.decode`): requires length a
multiple of four, canonical `=` padding, and zero trailing bits. -/
def b64Decode : List Char → Option (List Nat)
  | [] => some []
  | c1 :: c2 :: c3 :: c4 :: rest =>
      match b64Val c1, b64Val c2 with
      | some d1, some d2 =>
          if c3 = '=' then
            if c4 = '=' ∧ rest = [] then
              if d2 % 16 = 0 then some [d1 * 4 + d2 / 16] else none
            else none
          else
            match b64Val c3 with
            | some d3 =>
                if c4 = '=' then
                  if rest = [] then
                    if d3 % 4 = 0 then
                      some [d1 * 4 + d2 / 16, d2 % 16 * 16 + d3 / 4]
                    else none
                  else none
                else
                  match b64Val c4, b64Decode rest with
                  | some d4, some tail =>
                      some ((d1 * 4 + d2 / 16) :: (d2 % 16 * 16 + d3 / 4) ::
                        (d3 % 4 * 64 + d4) :: tail)
                  | _, _ => none
            | none => none
      | _, _ => none
  | _ => none

theorem b64Char_ne_pad {d : Nat} (h : d < 64) : b64Char d ≠ '=' := by
  interval_cases d <;> decide

theorem b64Decode_b64Encode (bs : List Nat) (h : ∀ x ∈ bs, x < 256) :
    b64Decode (b64Encode bs) = some bs := by
  induction bs using b64Encode.induct with
  | case1 => rfl
  | case2 a =>
      have ha : a < 256 := h a (by simp)
      have h1 : a / 4 < 64 := by omega
      have h2 : a % 4 * 16 < 64 := by omega
      have e0 : a % 4 * 16 % 16 = 0 := by omega
      have e1 : a / 4 * 4 + a % 4 * 16 / 16 = a := by omega
      simp [b64Encode, b64Decode, b64Val_b64Char h1, b64Val_b64Char h2, e0, e1]
      all_goals omega
  | case3 a b =>
      have ha : a < 256 := h a (by simp)
      have hb : b < 256 := h b (by simp)
      have h1 : a / 4 < 64 := by omega
      have h2 : a % 4 * 16 + b / 16 < 64 := by omega
      have h3 : b % 16 * 4 < 64 := by omega
      have e0 : b % 16 * 4 % 4 = 0 := by omega
      have e1 : a / 4 * 4 + (a % 4 * 16 + b / 16) / 16 = a := by omega
      have e2 : (a % 4 * 16 + b / 16) % 16 * 16 + b % 16 * 4 / 4 = b := by omega
      simp [b64Encode, b64Decode, b64Val_b64Char h1, b64Val_b64Char h2,
        b64Val_b64Char h3, b64Char_ne_pad h3, e0, e1, e2]
      all_goals omega
  | case4 a b c rest ih =>
      have ha : a < 256 := h a (by simp)
      have hb : b < 256 := h b (by simp)
      have hc : c < 256 := h c (by simp)
      have hrest : ∀ x ∈ rest, x < 256 := fun x hx => h x (by simp [hx])
      have h1 : a / 4 < 64 := by omega
      have h2 : a % 4 * 16 + b / 16 < 64 := by omega
      have h3 : b % 16 * 4 + c / 64 < 64 := by omega
      have h4 : c % 64 < 64 := by omega
      have e1 : a / 4 * 4 + (a % 4 * 16 + b / 16) / 16 = a := by omega
      have e2 : (a % 4 * 16 + b / 16) % 16 * 16 + (b % 16 * 4 + c / 64) / 4 = b := by omega
      have e3 : (b % 16 * 4 + c / 64) % 4 * 64 + c % 64 = c := by omega
      simp [b64Encode, b64Decode, b64Val_b64Char h1, b64Val_b64Char h2,
        b64Val_b64Char h3, b64Val_b64Char h4, b64Char_ne_pad h3, b64Char_ne_pad h4,
        ih hrest, e1, e2, e3]
      all_goals omega

/-! ## `canonical/scalar.rs`

Each deserializer is the serde visitor of the source dispatched over
the JSON token model: `Json.int` reaches `visit_i64`/`visit_u64`
(serde_json hands integer tokens to them natively), `Json.float`
reaches `visit_f64`, `Json.str` reaches `visit_str`, and every other
token hits the visitor's default, a serde "invalid type" error
(modelled as the fixed message `"invalid type"`). -/

/-- `CanonicalSerialize for bool`. -/
def serialize_bool (b : Bool) : Json := .bool b

/-- `CanonicalDeserialize for bool` (`bool::deserialize`). -/
def deserialize_bool : Json → Except Err Bool
  | .bool b => .ok b
  | _ => .error "invalid type"

/-- `CanonicalSerialize for i32`. -/
def serialize_i32 (n : Int) : Json := .int n

/-- `CanonicalDeserialize for i32`. -/
def deserialize_i32 : Json → Except Err Int
  | .int n => if -2147483648 ≤ n ∧ n ≤ 2147483647 then .ok n else .error "i32 out of range"
  | .float q => i32_from_f64 (.finite q)
  | .str s => i32_from_str s
  | _ => .error "invalid type"

/-- `CanonicalSerialize for u32`. -/
def serialize_u32 (n : Nat) : Json := .int n

/-- `CanonicalDeserialize for u32`. -/
def deserialize_u32 : Json → Except Err Nat
  | .int n => if 0 ≤ n ∧ n ≤ 4294967295 then .ok n.toNat else .error "u32 out of range"
  | .float q => u32_from_f64 (.finite q)
  | .str s => u32_from_str s
  | _ => .error "invalid type"

/-- `CanonicalSerialize for i64`: the decimal text as a JSON string. -/
def serialize_i64 (n : Int) : Json := .str (String.mk (intRepr n))

/-- `CanonicalDeserialize for i64`. -/
def deserialize_i64 : Json → Except Err Int
  | .int n =>
      if -9223372036854775808 ≤ n ∧ n ≤ 9223372036854775807 then .ok n
      else .error "i64 out of range"
  | .float q => i64_from_f64 (.finite q)
  | .str s => i64_from_str s
  | _ => .error "invalid type"

/-- `CanonicalSerialize for u64`: the decimal text as a JSON string. -/
def serialize_u64 (n : Nat) : Json := .str (String.mk (natRepr n))

/-- `CanonicalDeserialize for u64`. -/
def deserialize_u64 : Json → Except Err Nat
  | .int n =>
      if 0 ≤ n ∧ n ≤ 18446744073709551615 then .ok n.toNat else .error "u64 out of range"
  | .float q => u64_from_f64 (.finite q)
  | .str s => u64_from_str s
  | _ => .error "invalid type"

/-- `CanonicalSerialize for f64` (via `serialize_float64`). -/
def serialize_f64 (x : F64) : Json := serialize_float64 x

/-- `CanonicalDeserialize for f64`.  A positive integer token reaches
`visit_u64`, a negative one `visit_i64`. -/
def deserialize_f64 : Json → Except Err F64
  | .float q =>
      if (F64.finite q).isFinite then .ok (.finite q) else .error "float must be finite"
  | .int n => if 0 ≤ n then f64_from_u64_exact n.toNat else f64_from_i64_exact n
  | .str s => parse_float s
  | _ => .error "invalid type"

/-- `CanonicalSerialize for String`. -/
def serialize_string (s : String) : Json := .str s

/-- `CanonicalDeserialize for String` (`String::deserialize`). -/
def deserialize_string : Json → Except Err String
  | .str s => .ok s
  | _ => .error "invalid type"

/-- `CanonicalSerialize for Vec<u8>`: standard base64 with padding. -/
def serialize_bytes (bs : List Nat) : Json := .str (String.mk (b64Encode bs))

/-- `CanonicalDeserialize for Vec<u8>`: a string, base64-decoded. -/
def deserialize_bytes : Json → Except Err (List Nat)
  | .str s =>
      match b64Decode s.data with
      | some bs => .ok bs
      | none => .error "invalid base64"
  | _ => .error "invalid type"

theorem deserialize_i64_serialize {n : Int}
    (h : -9223372036854775808 ≤ n ∧ n ≤ 9223372036854775807) :
    deserialize_i64 (serialize_i64 n) = .ok n := by
  simp only [serialize_i64, deserialize_i64, i64_from_str,
    show (String.mk (intRepr n)).data = intRepr n from rfl,
    rustParseI_intRepr h.1 h.2]

theorem natRepr_string_data (n : Nat) : (String.mk (natRepr n)).data = natRepr n := rfl

theorem deserialize_u64_serialize {n : Nat} (h : n ≤ 18446744073709551615) :
    deserialize_u64 (serialize_u64 n) = .ok n := by
  simp only [serialize_u64, deserialize_u64, u64_from_str, natRepr_string_data,
    rustParseU_natRepr h]

theorem deserialize_i32_serialize {n : Int}
    (h : -2147483648 ≤ n ∧ n ≤ 2147483647) :
    deserialize_i32 (serialize_i32 n) = .ok n := by
  simp only [serialize_i32, deserialize_i32]
  rw [if_pos h]

theorem deserialize_f64_serialize {x : F64} (hwf : x.wf)
    (hmax : ∀ q, x = .finite q → |q| ≤ maxF64) :
    deserialize_f64 (serialize_f64 x) = .ok x := by
  cases x with
  | nan => rfl
  | inf => rfl
  | neginf => rfl
  | finite q =>
      simp only [serialize_f64, serialize_float64, deserialize_f64]
      rw [parse_float_dyadic q hwf (hmax q rfl)]

theorem deserialize_bytes_serialize {bs : List Nat} (h : ∀ x ∈ bs, x < 256) :
    deserialize_bytes (serialize_bytes bs) = .ok bs := by
  simp only [serialize_bytes, deserialize_bytes,
    show (String.mk (b64Encode bs)).data = b64Encode bs from rfl,
    b64Decode_b64Encode bs h]

/-! ## `canonical/wrappers.rs`

The generic adapters are embedded as functions over an element
deserializer.  Serde's `Option::deserialize` maps `null` to `None` and
otherwise defers to the inner type; `serde_json` feeds sequences and
maps to `visit_seq`/`visit_map`. -/

/-- Element-wise decoding of a JSON array (`visit_seq` with
`CanonicalValue` elements). -/
def decodeSeq (f : Json → Except Err α) : List Json → Except Err (List α)
  | [] => .ok []
  | j :: rest => do
      let x ← f j
      let xs ← decodeSeq f rest
      .ok (x :: xs)

/-- `Deserialize for CanonicalOption<T>` (wrappers.rs). -/
def canonical_option_deserialize (f : Json → Except Err α) : Json → Except Err (Option α)
  | .null => .ok none
  | j => (f j).map some

/-- `Serialize for CanonicalSeq<T>` (wrappers.rs). -/
def canonical_seq_serialize (f : α → Json) (values : List α) : Json := .arr (values.map f)

/-- `Deserialize for CanonicalVec<T>` (wrappers.rs): a sequence, or
`null`/missing for the empty vector. -/
def canonical_vec_deserialize (f : Json → Except Err α) : Json → Except Err (List α)
  | .arr xs => decodeSeq f xs
  | .null => .ok []
  | _ => .error "invalid type"

theorem canonical_option_deserialize_some {f : Json → Except Err α} {j : Json} {x : α}
    (hj : j ≠ .null) (h : f j = .ok x) :
    canonical_option_deserialize f j = .ok (some x) := by
  cases j <;> simp_all [canonical_option_deserialize, Except.map]

theorem decodeSeq_map {f : Json → Except Err α} {g : α → Json}
    (hrt : ∀ x ∈ xs, f (g x) = .ok x) :
    decodeSeq f (xs.map g) = .ok xs := by
  induction xs with
  | nil => rfl
  | cons x rest ih =>
      simp only [List.map_cons, decodeSeq, hrt x (by simp)]
      rw [ih (fun y hy => hrt y (by simp [hy]))]
      rfl

/-! ## `canonical/enums.rs`

`ProstEnum` is the helper trait the derive implements on generated
enums; an implementation is embedded as a descriptor carrying the
composites `from_i32`+`as_str_name` and `from_str_name`+`as_i32`
(the enum's variants themselves are an opaque generated type).
`isNullValue` is the `TypeId` test against `google.protobuf.NullValue`. -/

structure ProstEnumDescr where
  isNullValue : Bool
  fromI32 : Int → Option String
  fromStrName : String → Option Int

/-- `Serialize for CanonicalEnum` (enums.rs): `null` for
`NullValue` 0, the symbolic name for a known number, the raw number
otherwise. -/
def canonical_enum_serialize (E : ProstEnumDescr) (value : Int) : Json :=
  if E.isNullValue ∧ value = 0 then .null
  else
    match E.fromI32 value with
    | some name => .str name
    | none => .int value

/-- `Deserialize for CanonicalEnumValue` (enums.rs visitor):
`visit_unit` for `null`, `visit_str` for strings (symbolic names
only), `visit_i32`/`visit_i64`/`visit_u64` for integer tokens; no
float acceptance. -/
def canonical_enum_value_deserialize (E : ProstEnumDescr) : Json → Except Err Int
  | .null => if E.isNullValue then .ok 0 else .error "invalid enum value"
  | .str s =>
      if E.isNullValue ∧ s = "NULL_VALUE" then .ok 0
      else
        match E.fromStrName s with
        | some v => .ok v
        | none => .error "invalid enum string"
  | .int n =>
      if -2147483648 ≤ n ∧ n ≤ 2147483647 then .ok n else .error "enum number out of range"
  | _ => .error "invalid type"

/-- `Deserialize for CanonicalEnumOption` (enums.rs): serde `Option`
takes `null` to `None` before the enum visitor runs. -/
def canonical_enum_option_deserialize (E : ProstEnumDescr) : Json → Except Err (Option Int)
  | .null => .ok none
  | j => (canonical_enum_value_deserialize E j).map some

/-- `Serialize for CanonicalEnumSeq` (enums.rs). -/
def canonical_enum_seq_serialize (E : ProstEnumDescr) (values : List Int) : Json :=
  .arr (values.map (canonical_enum_serialize E))

/-- `Deserialize for CanonicalEnumVec` (enums.rs). -/
def canonical_enum_vec_deserialize (E : ProstEnumDescr) : Json → Except Err (List Int)
  | .arr xs => decodeSeq (canonical_enum_value_deserialize E) xs
  | .null => .ok []
  | _ => .error "invalid type"

/-! ## `canonical/map.rs`

The map container is embedded as a `BTreeMap`-style strictly sorted
association list over `String` keys (string-keyed maps are what the
representative message below uses); `insert` overwrites an existing
key, as both `BTreeMap::insert` and `HashMap::insert` do. -/

/-- `BTreeMap::insert` on a sorted association list. -/
def btreeInsert (k : String) (v : α) : List (String × α) → List (String × α)
  | [] => [(k, v)]
  | (k', v') :: rest =>
      if k < k' then (k, v) :: (k', v') :: rest
      else if k = k' then (k, v) :: rest
      else (k', v') :: btreeInsert k v rest

/-- `CanonicalMapKey for String::from_key` (map.rs). -/
def string_from_key (value : String) : Except Err String := .ok value

/-- `Serialize for CanonicalMapRef` (map.rs): an object of
stringified keys (identity for string keys) and canonical values. -/
def canonical_map_serialize (f : α → Json) (values : List (String × α)) : Json :=
  .obj (values.map (fun kv => (kv.1, f kv.2)))

/-- The `visit_map` loop of `Deserialize for CanonicalMap` (map.rs):
each entry's key goes through `from_key`, the value through the
element codec, and the pair is inserted. -/
def canonical_map_decode_entries (f : Json → Except Err α) :
    List (String × Json) → List (String × α) → Except Err (List (String × α))
  | [], acc => .ok acc
  | (k, jv) :: rest, acc => do
      let key ← string_from_key k
      let v ← f jv
      canonical_map_decode_entries f rest (btreeInsert key v acc)

/-- `Deserialize for CanonicalMap` (map.rs): a map, or `null`/missing
for the empty map. -/
def canonical_map_deserialize (f : Json → Except Err α) : Json → Except Err (List (String × α))
  | .obj kvs => canonical_map_decode_entries f kvs []
  | .null => .ok []
  | _ => .error "invalid type"

theorem btreeInsert_append {α : Type} {k : String} {v : α} {l : List (String × α)}
    (h : ∀ p ∈ l, p.1 < k) :
    btreeInsert k v l = l ++ [(k, v)] := by
  induction l with
  | nil => rfl
  | cons p rest ih =>
      obtain ⟨k', v'⟩ := p
      have hk : k' < k := h (k', v') (by simp)
      simp only [btreeInsert, if_neg (not_lt.mpr (le_of_lt hk)),
        if_neg (ne_of_gt hk), List.cons_append]
      rw [ih (fun p hp => h p (by simp [hp]))]

theorem canonical_map_decode_entries_sorted {α : Type} {f : Json → Except Err α}
    {g : α → Json} (entries : List (String × α)) (acc : List (String × α))
    (hrt : ∀ p ∈ entries, f (g p.2) = .ok p.2)
    (hacc : ∀ p ∈ acc, ∀ q ∈ entries, p.1 < q.1)
    (hsorted : entries.Pairwise (fun a b => a.1 < b.1)) :
    canonical_map_decode_entries f (entries.map (fun kv => (kv.1, g kv.2))) acc =
      .ok (acc ++ entries) := by
  induction entries generalizing acc with
  | nil => simp [canonical_map_decode_entries]
  | cons p rest ih =>
      obtain ⟨k, v⟩ := p
      have h1 : f (g v) = .ok v := hrt (k, v) (by simp)
      have h2 : btreeInsert k v acc = acc ++ [(k, v)] :=
        btreeInsert_append (fun p hp => hacc p hp (k, v) (by simp))
      have hrt2 : ∀ p ∈ rest, f (g p.2) = .ok p.2 := fun p hp => hrt p (by simp [hp])
      have hacc2 : ∀ p ∈ acc ++ [(k, v)], ∀ q ∈ rest, p.1 < q.1 := by
        intro p hp q hq
        rcases List.mem_append.mp hp with hin | hin
        · exact hacc p hin q (by simp [hq])
        · simp only [List.mem_singleton] at hin
          subst hin
          exact (List.pairwise_cons.mp hsorted).1 q hq
      have ihh := ih (acc ++ [(k, v)]) hrt2 hacc2 (List.pairwise_cons.mp hsorted).2
      simp only [List.map_cons, canonical_map_decode_entries, string_from_key, h1, h2,
        Bind.bind, Except.bind, ihh, List.append_assoc, List.singleton_append]

theorem canonical_map_roundtrip {α : Type} {f : Json → Except Err α} {g : α → Json}
    (entries : List (String × α))
    (hrt : ∀ p ∈ entries, f (g p.2) = .ok p.2)
    (hsorted : entries.Pairwise (fun a b => a.1 < b.1)) :
    canonical_map_deserialize f (canonical_map_serialize g entries) = .ok entries := by
  unfold canonical_map_serialize canonical_map_deserialize
  have := canonical_map_decode_entries_sorted entries [] hrt (by simp) hsorted
  simpa using this

/-! ## `canonical/wkt.rs`: Timestamp and Duration -/

/-- `prost_types::Timestamp` (seconds `i64`, nanos `i32`). -/
structure Timestamp where
  seconds : Int
  nanos : Int
  deriving Repr, DecidableEq

/-- `prost_types::Duration` (seconds `i64`, nanos `i32`). -/
structure Duration where
  seconds : Int
  nanos : Int
  deriving Repr, DecidableEq

/-- `MIN_TIMESTAMP_SECONDS` (wkt.rs): 0001-01-01T00:00:00Z. -/
def MIN_TIMESTAMP_SECONDS : Int := -62135596800

/-- `MAX_TIMESTAMP_SECONDS` (wkt.rs): 9999-12-31T23:59:59Z. -/
def MAX_TIMESTAMP_SECONDS : Int := 253402300799

/-- `while result.ends_with('0') { result.pop(); }` (wkt.rs). -/
def trimTrailingZeros (cs : List Char) : List Char :=
  (cs.reverse.dropWhile (fun c => c = '0')).reverse

/-- `format_duration` (wkt.rs): sign, seconds, and — when nanos are
nonzero — a nine-digit fraction with every trailing zero popped
one character at a time, then the `s` suffix. -/
def format_duration (value : Duration) : Except Err String :=
  if value.seconds < -315576000000 ∨ value.seconds > 315576000000 then
    .error "duration seconds out of range"
  else if value.nanos ≤ -1000000000 ∨ value.nanos ≥ 1000000000 then
    .error "duration nanos out of range"
  else if (value.seconds < 0 ∧ value.nanos > 0) ∨ (value.seconds > 0 ∧ value.nanos < 0) then
    .error "duration seconds and nanos must have same sign"
  else if value.seconds = 0 ∧ value.nanos = 0 then .ok "0s"
  else
    let negative := value.seconds < 0 ∨ value.nanos < 0
    let seconds := value.seconds.natAbs
    let nanos := value.nanos.natAbs
    let result := (if negative then ['-'] else []) ++ natRepr seconds
    let result :=
      if nanos ≠ 0 then trimTrailingZeros (result ++ '.' :: fracChars 9 nanos)
      else result
    .ok (String.mk (result ++ ['s']))

/-- `parse_duration_string` (wkt.rs): strip the `s` suffix and the
sign, split once at `.`, parse seconds as `i64` and the ≤ 9 fraction
digits as `u32` scaled to nanoseconds (an empty fraction counts as
zero), then re-apply the sign and run the range and sign checks. -/
def parse_duration_string (value : String) : Except Err Duration :=
  match value.data.reverse with
  | 's' :: restRev =>
      let stripped := restRev.reverse
      if stripped = [] then .error "duration is empty"
      else
        let negative := stripped.headI = '-'
        let core := if stripped.headI = '-' then stripped.tail else stripped
        let parts := splitFirst (fun c => c = '.') core
        let secondsPart := parts.1
        match rustParseI (-9223372036854775808) 9223372036854775807 secondsPart with
        | none => .error "invalid duration seconds"
        | some seconds =>
            let nanosResult : Except Err Int :=
              match parts.2 with
              | none => .ok 0
              | some fraction =>
                  if fraction.length > 9 then .error "invalid duration fractional"
                  else if fraction = [] then .ok 0
                  else
                    match rustParseU 4294967295 fraction with
                    | none => .error "invalid duration nanos"
                    | some parsed =>
                        let scale := 10 ^ (9 - fraction.length)
                        if parsed * scale > 4294967295 then .error "invalid duration nanos"
                        else if parsed * scale > 2147483647 then .error "invalid duration nanos"
                        else .ok (parsed * scale : Nat)
            match nanosResult with
            | .error e => .error e
            | .ok nanos =>
                let seconds := if negative then -seconds else seconds
                let nanos := if negative then -nanos else nanos
                if seconds < -315576000000 ∨ seconds > 315576000000 then
                  .error "duration seconds out of range"
                else if nanos ≤ -1000000000 ∨ nanos ≥ 1000000000 then
                  .error "duration nanos out of range"
                else if (seconds < 0 ∧ nanos > 0) ∨ (seconds > 0 ∧ nanos < 0) then
                  .error "duration seconds and nanos must have same sign"
                else .ok ⟨seconds, nanos⟩
  | _ => .error "duration must end with 's'"

/-- `validate_timestamp_format` (wkt.rs): the pre-check on the raw
string that rejects lowercase `t` and `z` and requires a `T`. -/
def validate_timestamp_format (value : String) : Except Err Unit :=
  if value.data.contains 't' then .error "timestamp must use 'T'"
  else if ¬ value.data.contains 'T' then .error "timestamp must include 'T'"
  else if value.data.contains 'z' then .error "timestamp must use 'Z'"
  else .ok ()

/-- Leap year rule (proleptic Gregorian). -/
def isLeapYear (y : Nat) : Bool :=
  (y % 4 = 0 && y % 100 ≠ 0) || y % 400 = 0

/-- Days in a month of the proleptic Gregorian calendar. -/
def daysInMonth (y m : Nat) : Nat :=
  if m = 2 then (if isLeapYear y then 29 else 28)
  else if m = 4 ∨ m = 6 ∨ m = 9 ∨ m = 11 then 30
  else 31

/-- Days since 1970-01-01 of a civil date (Howard Hinnant's
`days_from_civil`, the algorithm civil-time libraries including
`chrono` implement), for years `0 ≤ y ≤ 9999`. -/
def daysFromCivil (y m d : Nat) : Int :=
  let yShift := (if m ≤ 2 then y + 399 else y + 400)
  let era := yShift / 400
  let yoe := yShift % 400
  let mp := if m > 2 then m - 3 else m + 9
  let doy := (153 * mp + 2) / 5 + d - 1
  let doe := yoe * 365 + yoe / 4 - yoe / 100 + doy
  (era * 146097 + doe : Int) - 719468 - 146097

/-- Parses an RFC 3339 numeric offset or `Z`, in seconds east of UTC. -/
def parseOffset : List Char → Option Int
  | [z] => if z = 'Z' ∨ z = 'z' then some 0 else none
  | [sgn, h1, h2, colon, m1, m2] =>
      if (sgn = '+' ∨ sgn = '-') ∧ colon = ':' ∧
          [h1, h2, m1, m2].all isDigitChar then
        let hh := digitsVal [h1, h2]
        let mm := digitsVal [m1, m2]
        if hh ≤ 23 ∧ mm ≤ 59 then
          let off : Int := hh * 3600 + mm * 60
          some (if sgn = '-' then -off else off)
        else none
      else none
  | _ => none

/-- Parses the fraction (if any) and offset after the seconds field. -/
def parseFracOffset : List Char → Option (Nat × Int)
  | [] => none
  | c :: rest =>
      if c = '.' then
        let digits := rest.takeWhile isDigitChar
        let after := rest.dropWhile isDigitChar
        if digits = [] ∨ digits.length > 9 then none
        else
          match parseOffset after with
          | some off => some (digitsVal digits * 10 ^ (9 - digits.length), off)
          | none => none
      else
        match parseOffset (c :: rest) with
        | some off => some (0, off)
        | none => none

/-- Model of `chrono`'s `DateTime::parse_from_rfc3339` followed by
`.with_timezone(&Utc)`: parses
`YYYY-MM-DD[Tt]hh:mm:ss[.frac](Z|±hh:mm)` with calendar validation,
accepting lowercase `t`/`z` (RFC 3339 allows them, which is why the
source adds a separate pre-check), and returns the UTC-normalized
epoch seconds and the nanoseconds. -/
def parseRFC3339 (cs : List Char) : Option (Int × Nat) :=
  match cs with
  | y1 :: y2 :: y3 :: y4 :: '-' :: mo1 :: mo2 :: '-' :: d1 :: d2 :: t ::
      h1 :: h2 :: ':' :: mi1 :: mi2 :: ':' :: s1 :: s2 :: rest =>
      if [y1, y2, y3, y4, mo1, mo2, d1, d2, h1, h2, mi1, mi2, s1, s2].all isDigitChar ∧
          (t = 'T' ∨ t = 't') then
        let year := digitsVal [y1, y2, y3, y4]
        let month := digitsVal [mo1, mo2]
        let day := digitsVal [d1, d2]
        let hour := digitsVal [h1, h2]
        let minute := digitsVal [mi1, mi2]
        let second := digitsVal [s1, s2]
        if 1 ≤ month ∧ month ≤ 12 ∧ 1 ≤ day ∧ day ≤ daysInMonth year month ∧
            hour ≤ 23 ∧ minute ≤ 59 ∧ second ≤ 59 then
          match parseFracOffset rest with
          | some (nanos, off) =>
              some (daysFromCivil year month day * 86400 +
                (hour * 3600 + minute * 60 + second : Nat) - off, nanos)
          | none => none
        else none
      else none
  | _ => none

/-- `parse_timestamp_string` (wkt.rs): the lowercase pre-check, the
RFC 3339 parse, UTC normalization, then the seconds range check on the
normalized value. -/
def parse_timestamp_string (value : String) : Except Err Timestamp :=
  match validate_timestamp_format value with
  | .error e => .error e
  | .ok _ =>
      match parseRFC3339 value.data with
      | none => .error "invalid rfc3339 timestamp"
      | some (seconds, nanos) =>
          if MIN_TIMESTAMP_SECONDS ≤ seconds ∧ seconds ≤ MAX_TIMESTAMP_SECONDS then
            .ok ⟨seconds, (nanos : Int)⟩
          else .error "timestamp seconds out of range"

/-! ## The derive layer (`prost-canonical-serde-derive/src/lib.rs`)

The derive macros generate, per message struct, a `serialize_canonical`
that walks the fields in declaration order emitting the non-default
ones (`serialize_field`/`default_check_expr`), and a
`deserialize_canonical` whose `visit_map` loop initializes every field
to its default, runs the oneof checks on each key, then the per-field
match arms, ignoring unknown keys.  The expansion is embedded here at
a representative message type `KitchenSink` (mirroring the example
crate's kitchen-sink message) covering the field shapes: plain
scalars, i64/u64, bool, string, bytes, double, enum, nested message,
repeated, string-keyed map, a oneof group and an optional scalar. -/

/-- `f64 != 0.0` (the `default_check_expr` for float fields): IEEE
comparison, so NaN and the infinities are non-default and `-0.0` is
default. -/
def F64.neZero : F64 → Bool
  | .finite q => decide (q ≠ 0)
  | _ => true

/-- Finite values of an actual `f64` fit below `maxF64`. -/
def F64.bounded : F64 → Prop
  | .finite q => |q| ≤ maxF64
  | _ => True

instance : DecidablePred F64.bounded := fun x => by
  cases x <;> simp [F64.bounded] <;> infer_instance

/-- Modelled from the spec: the code-generator contract (§6) helper
queries `from_int`/`from_name`/`as_name`/`as_int` for the example
`Status` enum of the pre-generated `kitchen_sink.rs`, which is not
among the sources; names follow the protobuf UPPER_SNAKE convention
the generator emits. -/
def statusDescr : ProstEnumDescr where
  isNullValue := false
  fromI32 := fun n =>
    if n = 0 then some "STATUS_UNKNOWN"
    else if n = 1 then some "ACTIVE"
    else if n = 2 then some "INACTIVE"
    else none
  fromStrName := fun s =>
    if s = "STATUS_UNKNOWN" then some 0
    else if s = "ACTIVE" then some 1
    else if s = "INACTIVE" then some 2
    else none

/-- The nested message of the representative type. -/
structure Nested where
  id : Int
  note : String
  deriving Repr, DecidableEq

/-- The oneof group `Choice { Name(String), Value(i32) }`. -/
inductive Choice where
  | name (value : String)
  | value (value : Int)
  deriving Repr, DecidableEq

/-- The representative message. -/
structure KitchenSink where
  int32_field : Int
  int64_field : Int
  uint64_field : Nat
  bool_field : Bool
  string_field : String
  bytes_field : List Nat
  double_field : F64
  status : Int
  nested : Option Nested
  repeated_int32 : List Int
  string_to_int : List (String × Int)
  choice : Option Choice
  optional_int32 : Option Int
  deriving Repr, DecidableEq

/-- The all-defaults initial state of `visit_map` (`init_field`). -/
def KitchenSink.init : KitchenSink :=
  ⟨0, 0, 0, false, "", [], .finite 0, 0, none, [], [], none, none⟩

/-- `serialize_canonical` for `Nested` (derive expansion). -/
def Nested.encode (v : Nested) : Json :=
  .obj ((if v.id ≠ 0 then [("id", serialize_i32 v.id)] else []) ++
    (if v.note ≠ "" then [("note", serialize_string v.note)] else []))

/-- One `visit_map` step for `Nested` (derive expansion). -/
def Nested.decodeStep (s : Nested) (kv : String × Json) : Except Err Nested :=
  match kv.1 with
  | "id" => do
      match ← canonical_option_deserialize deserialize_i32 kv.2 with
      | some value => .ok { s with id := value }
      | none => .ok s
  | "note" => do
      match ← canonical_option_deserialize deserialize_string kv.2 with
      | some value => .ok { s with note := value }
      | none => .ok s
  | _ => .ok s

/-- The `visit_map` loop shared by the derive expansions. -/
def runFields (step : σ → (String × Json) → Except Err σ) : σ → List (String × Json) → Except Err σ
  | s, [] => .ok s
  | s, kv :: rest => do runFields step (← step s kv) rest

/-- `deserialize_canonical` for `Nested` (derive expansion). -/
def Nested.decode : Json → Except Err Nested
  | .obj kvs => runFields Nested.decodeStep ⟨0, ""⟩ kvs
  | _ => .error "invalid type"

/-- `OneofMatch` (lib.rs). -/
inductive OneofMatch (α : Type) where
  | noMatch
  | matched (value : Option α)

/-- `ProstOneof::serialize_field` for `Choice` (derive oneof
expansion): the active variant's entry. -/
def Choice.serializeField : Choice → String × Json
  | Choice.name v => ("name", serialize_string v)
  | Choice.value v => ("value", serialize_i32 v)

/-- `ProstOneof::try_deserialize` for `Choice` (derive oneof
expansion): decode the member whose key matched through
`CanonicalOption`, with `null` giving `Matched(None)`. -/
def Choice.tryDeserialize (key : String) (jv : Json) : Except Err (OneofMatch Choice) :=
  match key with
  | "name" =>
      (canonical_option_deserialize deserialize_string jv).map
        (fun o => .matched (o.map .name))
  | "value" =>
      (canonical_option_deserialize deserialize_i32 jv).map
        (fun o => .matched (o.map .value))
  | _ => .ok .noMatch

/-- `serialize_canonical` for `KitchenSink` (derive expansion):
declaration-order field walk with default elision. -/
def KitchenSink.encodeEntries (v : KitchenSink) : List (String × Json) :=
  (if v.int32_field ≠ 0 then [("int32Field", serialize_i32 v.int32_field)] else []) ++
  ((if v.int64_field ≠ 0 then [("int64Field", serialize_i64 v.int64_field)] else []) ++
  ((if v.uint64_field ≠ 0 then [("uint64Field", serialize_u64 v.uint64_field)] else []) ++
  ((if v.bool_field then [("boolField", serialize_bool v.bool_field)] else []) ++
  ((if v.string_field ≠ "" then [("stringField", serialize_string v.string_field)] else []) ++
  ((if v.bytes_field ≠ [] then [("bytesField", serialize_bytes v.bytes_field)] else []) ++
  ((if v.double_field.neZero then [("doubleField", serialize_f64 v.double_field)] else []) ++
  ((if v.status ≠ 0 then [("status", canonical_enum_serialize statusDescr v.status)] else []) ++
  ((match v.nested with
    | some n => [("nested", Nested.encode n)]
    | none => []) ++
  ((if v.repeated_int32 ≠ [] then
      [("repeatedInt32", canonical_seq_serialize serialize_i32 v.repeated_int32)]
    else []) ++
  ((if v.string_to_int ≠ [] then
      [("stringToInt", canonical_map_serialize serialize_i32 v.string_to_int)]
    else []) ++
  ((match v.choice with
    | some c => [Choice.serializeField c]
    | none => []) ++
  (match v.optional_int32 with
    | some x => [("optionalInt32", serialize_i32 x)]
    | none => []))))))))))))

def KitchenSink.encode (v : KitchenSink) : Json := .obj v.encodeEntries

/-- One `visit_map` step for `KitchenSink` (derive expansion): the
oneof check first, then the per-field match arms (each name matched
as JSON or proto name), unknown keys ignored. -/
def KitchenSink.decodeStep (s : KitchenSink) (kv : String × Json) : Except Err KitchenSink := do
  match ← Choice.tryDeserialize kv.1 kv.2 with
  | .matched (some value) =>
      if s.choice.isSome then .error "multiple oneof fields set"
      else .ok { s with choice := some value }
  | .matched none => .ok s
  | .noMatch =>
    match kv.1 with
    | "int32Field" | "int32_field" => do
        match ← canonical_option_deserialize deserialize_i32 kv.2 with
        | some value => .ok { s with int32_field := value }
        | none => .ok s
    | "int64Field" | "int64_field" => do
        match ← canonical_option_deserialize deserialize_i64 kv.2 with
        | some value => .ok { s with int64_field := value }
        | none => .ok s
    | "uint64Field" | "uint64_field" => do
        match ← canonical_option_deserialize deserialize_u64 kv.2 with
        | some value => .ok { s with uint64_field := value }
        | none => .ok s
    | "boolField" | "bool_field" => do
        match ← canonical_option_deserialize deserialize_bool kv.2 with
        | some value => .ok { s with bool_field := value }
        | none => .ok s
    | "stringField" | "string_field" => do
        match ← canonical_option_deserialize deserialize_string kv.2 with
        | some value => .ok { s with string_field := value }
        | none => .ok s
    | "bytesField" | "bytes_field" => do
        match ← canonical_option_deserialize deserialize_bytes kv.2 with
        | some value => .ok { s with bytes_field := value }
        | none => .ok s
    | "doubleField" | "double_field" => do
        match ← canonical_option_deserialize deserialize_f64 kv.2 with
        | some value => .ok { s with double_field := value }
        | none => .ok s
    | "status" => do
        match ← canonical_enum_option_deserialize statusDescr kv.2 with
        | some value => .ok { s with status := value }
        | none => .ok s
    | "nested" => do
        let value ← canonical_option_deserialize Nested.decode kv.2
        .ok { s with nested := value }
    | "repeatedInt32" | "repeated_int32" => do
        let value ← canonical_vec_deserialize deserialize_i32 kv.2
        .ok { s with repeated_int32 := value }
    | "stringToInt" | "string_to_int" => do
        let value ← canonical_map_deserialize deserialize_i32 kv.2
        .ok { s with string_to_int := value }
    | "optionalInt32" | "optional_int32" => do
        let value ← canonical_option_deserialize deserialize_i32 kv.2
        .ok { s with optional_int32 := value }
    | _ => .ok s

/-- `deserialize_canonical` for `KitchenSink` (derive expansion). -/
def KitchenSink.decode : Json → Except Err KitchenSink
  | .obj kvs => runFields KitchenSink.decodeStep KitchenSink.init kvs
  | _ => .error "invalid type"

/-- The `i32` value range. -/
def i32wf (n : Int) : Prop := -2147483648 ≤ n ∧ n ≤ 2147483647

/-- The `i64` value range. -/
def i64wf (n : Int) : Prop := -9223372036854775808 ≤ n ∧ n ≤ 9223372036854775807

/-- The `u64` value range. -/
def u64wf (n : Nat) : Prop := n ≤ 18446744073709551615

/-- A `KitchenSink` value every Rust value of the generated struct
satisfies: machine-integer ranges, byte ranges, real-`f64` floats, and
the `BTreeMap` sortedness invariant of the map field. -/
def KitchenSink.wf (v : KitchenSink) : Prop :=
  i32wf v.int32_field ∧ i64wf v.int64_field ∧ u64wf v.uint64_field ∧
  (∀ b ∈ v.bytes_field, b < 256) ∧
  v.double_field.wf ∧ v.double_field.bounded ∧
  i32wf v.status ∧
  (match v.nested with | some n => i32wf n.id | none => True) ∧
  (∀ x ∈ v.repeated_int32, i32wf x) ∧
  (∀ p ∈ v.string_to_int, i32wf p.2) ∧
  v.string_to_int.Pairwise (fun a b => a.1 < b.1) ∧
  (match v.choice with | some (Choice.value c) => i32wf c | _ => True) ∧
  (match v.optional_int32 with | some x => i32wf x | none => True)

/-- Rust `==` (the derived `PartialEq`) on `KitchenSink`: structural
on every field except the float, which uses IEEE equality. -/
def KitchenSink.rustEq (a b : KitchenSink) : Bool :=
  decide (a.int32_field = b.int32_field) && decide (a.int64_field = b.int64_field) &&
  decide (a.uint64_field = b.uint64_field) && decide (a.bool_field = b.bool_field) &&
  decide (a.string_field = b.string_field) && decide (a.bytes_field = b.bytes_field) &&
  F64.rustEq a.double_field b.double_field && decide (a.status = b.status) &&
  decide (a.nested = b.nested) && decide (a.repeated_int32 = b.repeated_int32) &&
  decide (a.string_to_int = b.string_to_int) && decide (a.choice = b.choice) &&
  decide (a.optional_int32 = b.optional_int32)

/-- The JSON round trip of a `KitchenSink` value followed by the Rust
`==` comparison with the original (the property the crate's own
round-trip test asserts). -/
def ksRoundTripRustEq (v : KitchenSink) : Bool :=
  match KitchenSink.decode (KitchenSink.encode v) with
  | .ok w => KitchenSink.rustEq w v
  | .error _ => false

/-- A representative concrete `KitchenSink` value exercising every
field shape (mirroring the crate's `sample_message` test value). -/
def ksSample : KitchenSink :=
  { int32_field := 123, int64_field := 9007199254740993,
    uint64_field := 18446744073709551615, bool_field := true, string_field := "hello",
    bytes_field := [0, 1, 2, 255], double_field := .finite (-13/4), status := 1,
    nested := some ⟨42, "primary"⟩, repeated_int32 := [7, 8],
    string_to_int := [("alpha", 1), ("beta", 2)], choice := some (.name "choice name"),
    optional_int32 := none }

theorem runFields_append {σ : Type} (step : σ → (String × Json) → Except Err σ) (s : σ)
    (l1 l2 : List (String × Json)) :
    runFields step s (l1 ++ l2) =
      match runFields step s l1 with
      | .ok s2 => runFields step s2 l2
      | .error e => .error e := by
  induction l1 generalizing s with
  | nil => simp [runFields]
  | cons kv rest ih =>
      simp only [List.cons_append, runFields]
      cases h : step s kv with
      | ok s2 => simp [Bind.bind, Except.bind, h, ih]
      | error e => simp [Bind.bind, Except.bind, h]

theorem ks_step_int32 (s v : KitchenSink) (hwf : i32wf v.int32_field)
    (hdef : s.int32_field = 0) :
    runFields KitchenSink.decodeStep s
      (if v.int32_field ≠ 0 then [("int32Field", serialize_i32 v.int32_field)] else []) =
      .ok { s with int32_field := v.int32_field } := by
  by_cases h0 : v.int32_field = 0
  · rw [if_neg (by simp [h0])]
    rw [show ({ s with int32_field := v.int32_field } : KitchenSink) = s by
      rw [h0, ← hdef]]
    rfl
  · rw [if_pos h0]
    have hopt : canonical_option_deserialize deserialize_i32 (.int v.int32_field) =
        .ok (some v.int32_field) :=
      canonical_option_deserialize_some (by simp)
        (by simp [deserialize_i32, hwf.1, hwf.2])
    simp only [runFields, KitchenSink.decodeStep, serialize_i32,
      show ∀ jv, Choice.tryDeserialize "int32Field" jv = .ok .noMatch from fun _ => rfl,
      Bind.bind, Except.bind, hopt]

theorem ks_step_int64 (s v : KitchenSink) (hwf : i64wf v.int64_field)
    (hdef : s.int64_field = 0) :
    runFields KitchenSink.decodeStep s
      (if v.int64_field ≠ 0 then [("int64Field", serialize_i64 v.int64_field)] else []) =
      .ok { s with int64_field := v.int64_field } := by
  by_cases h0 : v.int64_field = 0
  · rw [if_neg (by simp [h0])]
    rw [show ({ s with int64_field := v.int64_field } : KitchenSink) = s by
      rw [h0, ← hdef]]
    rfl
  · rw [if_pos h0]
    have hopt : canonical_option_deserialize deserialize_i64 (serialize_i64 v.int64_field) =
        .ok (some v.int64_field) :=
      canonical_option_deserialize_some (by simp [serialize_i64])
        (deserialize_i64_serialize hwf)
    simp only [runFields, KitchenSink.decodeStep,
      show ∀ jv, Choice.tryDeserialize "int64Field" jv = .ok .noMatch from fun _ => rfl,
      Bind.bind, Except.bind, hopt]

theorem ks_step_uint64 (s v : KitchenSink) (hwf : u64wf v.uint64_field)
    (hdef : s.uint64_field = 0) :
    runFields KitchenSink.decodeStep s
      (if v.uint64_field ≠ 0 then [("uint64Field", serialize_u64 v.uint64_field)] else []) =
      .ok { s with uint64_field := v.uint64_field } := by
  by_cases h0 : v.uint64_field = 0
  · rw [if_neg (by simp [h0])]
    rw [show ({ s with uint64_field := v.uint64_field } : KitchenSink) = s by
      rw [h0, ← hdef]]
    rfl
  · rw [if_pos h0]
    have hopt : canonical_option_deserialize deserialize_u64 (serialize_u64 v.uint64_field) =
        .ok (some v.uint64_field) :=
      canonical_option_deserialize_some (by simp [serialize_u64])
        (deserialize_u64_serialize hwf)
    simp only [runFields, KitchenSink.decodeStep,
      show ∀ jv, Choice.tryDeserialize "uint64Field" jv = .ok .noMatch from fun _ => rfl,
      Bind.bind, Except.bind, hopt]

theorem ks_step_bool (s v : KitchenSink) (hdef : s.bool_field = false) :
    runFields KitchenSink.decodeStep s
      (if v.bool_field then [("boolField", serialize_bool v.bool_field)] else []) =
      .ok { s with bool_field := v.bool_field } := by
  by_cases h0 : v.bool_field
  · rw [if_pos h0]
    have hopt : canonical_option_deserialize deserialize_bool (serialize_bool v.bool_field) =
        .ok (some v.bool_field) :=
      canonical_option_deserialize_some (by simp [serialize_bool]) rfl
    simp only [runFields, KitchenSink.decodeStep,
      show ∀ jv, Choice.tryDeserialize "boolField" jv = .ok .noMatch from fun _ => rfl,
      Bind.bind, Except.bind, hopt]
  · rw [if_neg h0]
    rw [show ({ s with bool_field := v.bool_field } : KitchenSink) = s by
      rw [show v.bool_field = false by simpa using h0, ← hdef]]
    rfl

theorem ks_step_string (s v : KitchenSink) (hdef : s.string_field = "") :
    runFields KitchenSink.decodeStep s
      (if v.string_field ≠ "" then [("stringField", serialize_string v.string_field)] else []) =
      .ok { s with string_field := v.string_field } := by
  by_cases h0 : v.string_field = ""
  · rw [if_neg (by simp [h0])]
    rw [show ({ s with string_field := v.string_field } : KitchenSink) = s by
      rw [h0, ← hdef]]
    rfl
  · rw [if_pos h0]
    have hopt : canonical_option_deserialize deserialize_string
        (serialize_string v.string_field) = .ok (some v.string_field) :=
      canonical_option_deserialize_some (by simp [serialize_string]) rfl
    simp only [runFields, KitchenSink.decodeStep,
      show ∀ jv, Choice.tryDeserialize "stringField" jv = .ok .noMatch from fun _ => rfl,
      Bind.bind, Except.bind, hopt]

theorem ks_step_bytes (s v : KitchenSink) (hwf : ∀ b ∈ v.bytes_field, b < 256)
    (hdef : s.bytes_field = []) :
    runFields KitchenSink.decodeStep s
      (if v.bytes_field ≠ [] then [("bytesField", serialize_bytes v.bytes_field)] else []) =
      .ok { s with bytes_field := v.bytes_field } := by
  by_cases h0 : v.bytes_field = []
  · rw [if_neg (by simp [h0])]
    rw [show ({ s with bytes_field := v.bytes_field } : KitchenSink) = s by
      rw [h0, ← hdef]]
    rfl
  · rw [if_pos h0]
    have hopt : canonical_option_deserialize deserialize_bytes
        (serialize_bytes v.bytes_field) = .ok (some v.bytes_field) :=
      canonical_option_deserialize_some (by simp [serialize_bytes])
        (deserialize_bytes_serialize hwf)
    simp only [runFields, KitchenSink.decodeStep,
      show ∀ jv, Choice.tryDeserialize "bytesField" jv = .ok .noMatch from fun _ => rfl,
      Bind.bind, Except.bind, hopt]

theorem F64_neZero_false {x : F64} (h : x.neZero = false) : x = .finite 0 := by
  cases x <;> simp_all [F64.neZero]

theorem serialize_f64_ne_null (x : F64) : serialize_f64 x ≠ .null := by
  cases x <;> simp [serialize_f64, serialize_float64]

theorem ks_step_double (s v : KitchenSink) (hwf : v.double_field.wf)
    (hb : v.double_field.bounded) (hdef : s.double_field = .finite 0) :
    runFields KitchenSink.decodeStep s
      (if v.double_field.neZero then [("doubleField", serialize_f64 v.double_field)] else []) =
      .ok { s with double_field := v.double_field } := by
  by_cases h0 : v.double_field.neZero
  · rw [if_pos h0]
    have hmax : ∀ q, v.double_field = .finite q → |q| ≤ maxF64 := by
      intro q hq
      have := hb
      rw [hq] at this
      exact this
    have hopt : canonical_option_deserialize deserialize_f64
        (serialize_f64 v.double_field) = .ok (some v.double_field) :=
      canonical_option_deserialize_some (serialize_f64_ne_null _)
        (deserialize_f64_serialize hwf hmax)
    simp only [runFields, KitchenSink.decodeStep,
      show ∀ jv, Choice.tryDeserialize "doubleField" jv = .ok .noMatch from fun _ => rfl,
      Bind.bind, Except.bind, hopt]
  · rw [if_neg h0]
    rw [show ({ s with double_field := v.double_field } : KitchenSink) = s by
      rw [show v.double_field = .finite 0 from F64_neZero_false (by simpa using h0), ← hdef]]
    rfl

theorem status_enum_roundtrip {n : Int} (hwf : i32wf n) :
    canonical_enum_option_deserialize statusDescr (canonical_enum_serialize statusDescr n) =
      .ok (some n) := by
  by_cases h0 : n = 0
  · subst h0; decide
  · by_cases h1 : n = 1
    · subst h1; decide
    · by_cases h2 : n = 2
      · subst h2; decide
      · simp [canonical_enum_serialize, statusDescr, h0, h1, h2,
          canonical_enum_option_deserialize, canonical_enum_value_deserialize,
          Except.map, hwf.1, hwf.2]

theorem ks_step_status (s v : KitchenSink) (hwf : i32wf v.status)
    (hdef : s.status = 0) :
    runFields KitchenSink.decodeStep s
      (if v.status ≠ 0 then [("status", canonical_enum_serialize statusDescr v.status)]
       else []) =
      .ok { s with status := v.status } := by
  by_cases h0 : v.status = 0
  · rw [if_neg (by simp [h0])]
    rw [show ({ s with status := v.status } : KitchenSink) = s by rw [h0, ← hdef]]
    rfl
  · rw [if_pos h0]
    simp only [runFields, KitchenSink.decodeStep,
      show ∀ jv, Choice.tryDeserialize "status" jv = .ok .noMatch from fun _ => rfl,
      Bind.bind, Except.bind, status_enum_roundtrip hwf]

theorem nested_step_id (s n : Nested) (hwf : i32wf n.id) (hdef : s.id = 0) :
    runFields Nested.decodeStep s
      (if n.id ≠ 0 then [("id", serialize_i32 n.id)] else []) =
      .ok { s with id := n.id } := by
  by_cases h0 : n.id = 0
  · rw [if_neg (by simp [h0])]
    rw [show ({ s with id := n.id } : Nested) = s by rw [h0, ← hdef]]
    rfl
  · rw [if_pos h0]
    have hopt : canonical_option_deserialize deserialize_i32 (serialize_i32 n.id) =
        .ok (some n.id) :=
      canonical_option_deserialize_some (by simp [serialize_i32])
        (by simp [serialize_i32, deserialize_i32, hwf.1, hwf.2])
    simp only [runFields, Nested.decodeStep, Bind.bind, Except.bind, hopt]

theorem nested_step_note (s n : Nested) (hdef : s.note = "") :
    runFields Nested.decodeStep s
      (if n.note ≠ "" then [("note", serialize_string n.note)] else []) =
      .ok { s with note := n.note } := by
  by_cases h0 : n.note = ""
  · rw [if_neg (by simp [h0])]
    rw [show ({ s with note := n.note } : Nested) = s by rw [h0, ← hdef]]
    rfl
  · rw [if_pos h0]
    have hopt : canonical_option_deserialize deserialize_string (serialize_string n.note) =
        .ok (some n.note) :=
      canonical_option_deserialize_some (by simp [serialize_string]) rfl
    simp only [runFields, Nested.decodeStep, Bind.bind, Except.bind, hopt]

theorem nested_roundtrip (n : Nested) (hwf : i32wf n.id) :
    Nested.decode (Nested.encode n) = .ok n := by
  simp only [Nested.encode, Nested.decode]
  simp only [runFields_append, nested_step_id ⟨0, ""⟩ n hwf rfl]
  simp only [nested_step_note { (⟨0, ""⟩ : Nested) with id := n.id } n rfl]

theorem ks_step_nested (s v : KitchenSink)
    (hwf : match v.nested with | some n => i32wf n.id | none => True)
    (hdef : s.nested = none) :
    runFields KitchenSink.decodeStep s
      (match v.nested with
       | some n => [("nested", Nested.encode n)]
       | none => []) =
      .ok { s with nested := v.nested } := by
  cases hn : v.nested with
  | none =>
      rw [show ({ s with nested := (none : Option Nested) } : KitchenSink) = s by
        rw [← hdef]]
      rfl
  | some n =>
      have hwfn : i32wf n.id := by
        rw [hn] at hwf
        exact hwf
      have hopt : canonical_option_deserialize Nested.decode (Nested.encode n) =
          .ok (some n) :=
        canonical_option_deserialize_some (by simp [Nested.encode])
          (nested_roundtrip n hwfn)
      simp only [runFields, KitchenSink.decodeStep,
        show ∀ jv, Choice.tryDeserialize "nested" jv = .ok .noMatch from fun _ => rfl,
        Bind.bind, Except.bind, hopt, hn]

theorem ks_step_repeated (s v : KitchenSink) (hwf : ∀ x ∈ v.repeated_int32, i32wf x)
    (hdef : s.repeated_int32 = []) :
    runFields KitchenSink.decodeStep s
      (if v.repeated_int32 ≠ [] then
        [("repeatedInt32", canonical_seq_serialize serialize_i32 v.repeated_int32)]
       else []) =
      .ok { s with repeated_int32 := v.repeated_int32 } := by
  by_cases h0 : v.repeated_int32 = []
  · rw [if_neg (by simp [h0])]
    rw [show ({ s with repeated_int32 := v.repeated_int32 } : KitchenSink) = s by
      rw [h0, ← hdef]]
    rfl
  · rw [if_pos h0]
    have hvec : canonical_vec_deserialize deserialize_i32
        (canonical_seq_serialize serialize_i32 v.repeated_int32) =
        .ok v.repeated_int32 := by
      unfold canonical_seq_serialize canonical_vec_deserialize
      exact decodeSeq_map (fun x hx => by
        simp [serialize_i32, deserialize_i32, (hwf x hx).1, (hwf x hx).2])
    simp only [runFields, KitchenSink.decodeStep,
      show ∀ jv, Choice.tryDeserialize "repeatedInt32" jv = .ok .noMatch from fun _ => rfl,
      Bind.bind, Except.bind, hvec]

theorem ks_step_map (s v : KitchenSink) (hwf : ∀ p ∈ v.string_to_int, i32wf p.2)
    (hsorted : v.string_to_int.Pairwise (fun a b => a.1 < b.1))
    (hdef : s.string_to_int = []) :
    runFields KitchenSink.decodeStep s
      (if v.string_to_int ≠ [] then
        [("stringToInt", canonical_map_serialize serialize_i32 v.string_to_int)]
       else []) =
      .ok { s with string_to_int := v.string_to_int } := by
  by_cases h0 : v.string_to_int = []
  · rw [if_neg (by simp [h0])]
    rw [show ({ s with string_to_int := v.string_to_int } : KitchenSink) = s by
      rw [h0, ← hdef]]
    rfl
  · rw [if_pos h0]
    have hmap : canonical_map_deserialize deserialize_i32
        (canonical_map_serialize serialize_i32 v.string_to_int) =
        .ok v.string_to_int :=
      canonical_map_roundtrip v.string_to_int
        (fun p hp => by simp [serialize_i32, deserialize_i32, (hwf p hp).1, (hwf p hp).2])
        hsorted
    simp only [runFields, KitchenSink.decodeStep,
      show ∀ jv, Choice.tryDeserialize "stringToInt" jv = .ok .noMatch from fun _ => rfl,
      Bind.bind, Except.bind, hmap]

theorem ks_step_choice (s v : KitchenSink)
    (hwf : match v.choice with | some (Choice.value c) => i32wf c | _ => True)
    (hdef : s.choice = none) :
    runFields KitchenSink.decodeStep s
      (match v.choice with
       | some c => [Choice.serializeField c]
       | none => []) =
      .ok { s with choice := v.choice } := by
  cases hn : v.choice with
  | none =>
      rw [show ({ s with choice := (none : Option Choice) } : KitchenSink) = s by
        rw [← hdef]]
      rfl
  | some c =>
      cases c with
      | name str =>
          have htry : Choice.tryDeserialize "name" (serialize_string str) =
              .ok (.matched (some (.name str))) := rfl
          simp only [runFields, KitchenSink.decodeStep, Choice.serializeField,
            Bind.bind, Except.bind, htry, hdef, Option.isSome_none,
            Bool.false_eq_true, if_false, hn]
      | value x =>
          have hwfx : i32wf x := by
            rw [hn] at hwf
            exact hwf
          have hco : canonical_option_deserialize deserialize_i32 (Json.int x) =
              .ok (some x) :=
            canonical_option_deserialize_some (by simp)
              (by simp [deserialize_i32, hwfx.1, hwfx.2])
          have htry : Choice.tryDeserialize "value" (serialize_i32 x) =
              .ok (.matched (some (.value x))) := by
            simp only [Choice.tryDeserialize, serialize_i32, hco, Except.map, Option.map]
          simp only [runFields, KitchenSink.decodeStep, Choice.serializeField,
            Bind.bind, Except.bind, htry, hdef, Option.isSome_none,
            Bool.false_eq_true, if_false, hn]

theorem ks_step_optional (s v : KitchenSink)
    (hwf : match v.optional_int32 with | some x => i32wf x | none => True)
    (hdef : s.optional_int32 = none) :
    runFields KitchenSink.decodeStep s
      (match v.optional_int32 with
       | some x => [("optionalInt32", serialize_i32 x)]
       | none => []) =
      .ok { s with optional_int32 := v.optional_int32 } := by
  cases hn : v.optional_int32 with
  | none =>
      rw [show ({ s with optional_int32 := (none : Option Int) } : KitchenSink) = s by
        rw [← hdef]]
      rfl
  | some x =>
      have hwfx : i32wf x := by
        rw [hn] at hwf
        exact hwf
      have hopt : canonical_option_deserialize deserialize_i32 (serialize_i32 x) =
          .ok (some x) :=
        canonical_option_deserialize_some (by simp [serialize_i32])
          (by simp [serialize_i32, deserialize_i32, hwfx.1, hwfx.2])
      simp only [runFields, KitchenSink.decodeStep,
        show ∀ jv, Choice.tryDeserialize "optionalInt32" jv = .ok .noMatch from fun _ => rfl,
        Bind.bind, Except.bind, hopt, hn]


theorem kitchen_sink_roundtrip (v : KitchenSink) (hwf : v.wf) :
    KitchenSink.decode (KitchenSink.encode v) = .ok v := by
  obtain ⟨h1, h2, h3, h4, h5, h6, h7, h8, h9, h10, h11, h12, h13⟩ := hwf
  simp only [KitchenSink.encode, KitchenSink.decode, KitchenSink.encodeEntries]
  simp only [runFields_append,
    ks_step_int32 KitchenSink.init v h1 rfl]
  simp only [runFields_append,
    ks_step_int64 ({ KitchenSink.init with
      int32_field := v.int32_field }) v h2 rfl]
  simp only [runFields_append,
    ks_step_uint64 ({ KitchenSink.init with
      int32_field := v.int32_field,
      int64_field := v.int64_field }) v h3 rfl]
  simp only [runFields_append,
    ks_step_bool ({ KitchenSink.init with
      int32_field := v.int32_field,
      int64_field := v.int64_field,
      uint64_field := v.uint64_field }) v rfl]
  simp only [runFields_append,
    ks_step_string ({ KitchenSink.init with
      int32_field := v.int32_field,
      int64_field := v.int64_field,
      uint64_field := v.uint64_field,
      bool_field := v.bool_field }) v rfl]
  simp only [runFields_append,
    ks_step_bytes ({ KitchenSink.init with
      int32_field := v.int32_field,
      int64_field := v.int64_field,
      uint64_field := v.uint64_field,
      bool_field := v.bool_field,
      string_field := v.string_field }) v h4 rfl]
  simp only [runFields_append,
    ks_step_double ({ KitchenSink.init with
      int32_field := v.int32_field,
      int64_field := v.int64_field,
      uint64_field := v.uint64_field,
      bool_field := v.bool_field,
      string_field := v.string_field,
      bytes_field := v.bytes_field }) v h5 h6 rfl]
  simp only [runFields_append,
    ks_step_status ({ KitchenSink.init with
      int32_field := v.int32_field,
      int64_field := v.int64_field,
      uint64_field := v.uint64_field,
      bool_field := v.bool_field,
      string_field := v.string_field,
      bytes_field := v.bytes_field,
      double_field := v.double_field }) v h7 rfl]
  simp only [runFields_append,
    ks_step_nested ({ KitchenSink.init with
      int32_field := v.int32_field,
      int64_field := v.int64_field,
      uint64_field := v.uint64_field,
      bool_field := v.bool_field,
      string_field := v.string_field,
      bytes_field := v.bytes_field,
      double_field := v.double_field,
      status := v.status }) v h8 rfl]
  simp only [runFields_append,
    ks_step_repeated ({ KitchenSink.init with
      int32_field := v.int32_field,
      int64_field := v.int64_field,
      uint64_field := v.uint64_field,
      bool_field := v.bool_field,
      string_field := v.string_field,
      bytes_field := v.bytes_field,
      double_field := v.double_field,
      status := v.status,
      nested := v.nested }) v h9 rfl]
  simp only [runFields_append,
    ks_step_map ({ KitchenSink.init with
      int32_field := v.int32_field,
      int64_field := v.int64_field,
      uint64_field := v.uint64_field,
      bool_field := v.bool_field,
      string_field := v.string_field,
      bytes_field := v.bytes_field,
      double_field := v.double_field,
      status := v.status,
      nested := v.nested,
      repeated_int32 := v.repeated_int32 }) v h10 h11 rfl]
  simp only [runFields_append,
    ks_step_choice ({ KitchenSink.init with
      int32_field := v.int32_field,
      int64_field := v.int64_field,
      uint64_field := v.uint64_field,
      bool_field := v.bool_field,
      string_field := v.string_field,
      bytes_field := v.bytes_field,
      double_field := v.double_field,
      status := v.status,
      nested := v.nested,
      repeated_int32 := v.repeated_int32,
      string_to_int := v.string_to_int }) v h12 rfl]
  simp only [
    ks_step_optional ({ KitchenSink.init with
      int32_field := v.int32_field,
      int64_field := v.int64_field,
      uint64_field := v.uint64_field,
      bool_field := v.bool_field,
      string_field := v.string_field,
      bytes_field := v.bytes_field,
      double_field := v.double_field,
      status := v.status,
      nested := v.nested,
      repeated_int32 := v.repeated_int32,
      string_to_int := v.string_to_int,
      choice := v.choice }) v h13 rfl]

/-! ## The claims -/

/-- C2 (counterexample): the string-to-integer conversion for `u32`,
`i64` and `u64` has no floating-point fallback, so the input
`"4.2e1"`, which the claim says decodes to 42 for every integer field
kind, is rejected by each of them. -/
theorem C2_number_tolerance_counterexample :
    u32_from_str "4.2e1" = .error "invalid u32 string" ∧
    i64_from_str "4.2e1" = .error "invalid i64 string" ∧
    u64_from_str "4.2e1" = .error "invalid u64 string" := by
  refine ⟨?_, ?_, ?_⟩ <;> rfl

/-- C2 (amended): only the `i32` string conversion falls back to a
floating-point parse with the integrality check, so for an `i32` field
each of 42, `"42"`, 42.0 and `"4.2e1"` decodes to 42; for `u32`, `i64`
and `u64` the string conversion is a native base-10 parse only (42,
`"42"` and 42.0 still agree, `"4.2e1"` fails), and out-of-safe-range
inputs fail for every kind. -/
theorem C2_number_tolerance_amended :
    (deserialize_i32 (.int 42) = .ok 42 ∧ deserialize_i32 (.str "42") = .ok 42 ∧
      deserialize_i32 (.float 42) = .ok 42 ∧ deserialize_i32 (.str "4.2e1") = .ok 42) ∧
    (deserialize_u32 (.int 42) = .ok 42 ∧ deserialize_u32 (.str "42") = .ok 42 ∧
      deserialize_u32 (.float 42) = .ok 42 ∧
      deserialize_u32 (.str "4.2e1") = .error "invalid u32 string") ∧
    (deserialize_i64 (.int 42) = .ok 42 ∧ deserialize_i64 (.str "42") = .ok 42 ∧
      deserialize_i64 (.float 42) = .ok 42 ∧
      deserialize_i64 (.str "4.2e1") = .error "invalid i64 string") ∧
    (deserialize_u64 (.int 42) = .ok 42 ∧ deserialize_u64 (.str "42") = .ok 42 ∧
      deserialize_u64 (.float 42) = .ok 42 ∧
      deserialize_u64 (.str "4.2e1") = .error "invalid u64 string") ∧
    (i32_from_str "2147483648" = .error "i32 out of range" ∧
      u32_from_str "4294967296" = .error "invalid u32 string" ∧
      deserialize_i64 (.float 9007199254740994) = .error "i64 out of range" ∧
      deserialize_u64 (.float 18014398509481986) = .error "u64 out of range") := by
  set_option maxRecDepth 40000 in with_unfolding_all decide

/-- C3 (code evaluated at the failing input): the serializer pops
trailing zeros one character at a time, so the Duration
`{seconds = -1, nanos = -500000000}` is emitted as `"-1.5s"` with a
one-digit fraction, not as the `"-1.500s"` (fraction length in
`{0, 3, 6, 9}`) that the claim specifies. -/
theorem C3_fraction_digits_bug :
    format_duration ⟨-1, -500000000⟩ = .ok "-1.5s" ∧
    format_duration ⟨1, 120000000⟩ = .ok "1.12s" := by
  constructor <;> rfl

/-- C4 (counterexample): a bare JSON integer token reaches
`visit_i64`/`visit_u64`, which accept the full `i64` range with no
safe-range check, so the bare number 9007199254740993 (2^53 + 1),
which the claim says is rejected, decodes successfully. -/
theorem C4_int64_string_counterexample :
    deserialize_i64 (.int 9007199254740993) = .ok 9007199254740993 := rfl

/-- C4 (amended): every `i64`/`u64` value serializes as a JSON string
and `"9007199254740993"` decodes successfully; a bare JSON number is
accepted exactly for native integer tokens of the full `i64`/`u64`
range (2^53 + 1 included), while only number tokens arriving as
floating point (fraction or exponent in the literal) are subject to
the f64-exact safe-range check. -/
theorem C4_int64_string_amended :
    (∀ n : Int, i64wf n → serialize_i64 n = .str (String.mk (intRepr n)) ∧
      deserialize_i64 (.int n) = .ok n) ∧
    deserialize_i64 (.str "9007199254740993") = .ok 9007199254740993 ∧
    serialize_i64 9007199254740993 = .str "9007199254740993" ∧
    serialize_u64 18446744073709551615 = .str "18446744073709551615" ∧
    deserialize_i64 (.float 9007199254740994) = .error "i64 out of range" := by
  refine ⟨fun n hn => ⟨rfl, ?_⟩, ?_, ?_, ?_, ?_⟩
  · simp only [deserialize_i64, if_pos (And.intro hn.1 hn.2)]
  · rfl
  · rfl
  · rfl
  · with_unfolding_all decide

/-- C4 (witness): the amended theorem applied at 2^53 + 1. -/
theorem C4_int64_string_witness :
    i64wf 9007199254740993 ∧
    (serialize_i64 9007199254740993 = .str (String.mk (intRepr 9007199254740993)) ∧
      deserialize_i64 (.int 9007199254740993) = .ok 9007199254740993) :=
  ⟨⟨by decide, by decide⟩, C4_int64_string_amended.1 9007199254740993 ⟨by decide, by decide⟩⟩

/-- C6 (counterexample): the enum visitor's `visit_str` only consults
`from_str_name`, so the integer-valued string `"1"`, which the claim
says is accepted, is rejected. -/
theorem C6_enum_counterexample :
    canonical_enum_value_deserialize statusDescr (.str "1") =
      .error "invalid enum string" := rfl

/-- C6 (amended): enum serialization emits the symbolic name for a
known number and the raw integer otherwise; deserialization accepts
the symbolic name or an integer but rejects integer-valued strings
like any unknown name; an unknown symbolic name fails, and an unknown
integer succeeds and serializes back as a number. -/
theorem C6_enum_amended :
    canonical_enum_serialize statusDescr 1 = .str "ACTIVE" ∧
    canonical_enum_serialize statusDescr 42 = .int 42 ∧
    canonical_enum_value_deserialize statusDescr (.str "ACTIVE") = .ok 1 ∧
    (∀ n : Int, i32wf n → canonical_enum_value_deserialize statusDescr (.int n) = .ok n) ∧
    canonical_enum_value_deserialize statusDescr (.str "BOGUS") =
      .error "invalid enum string" ∧
    canonical_enum_value_deserialize statusDescr (.str "1") = .error "invalid enum string" ∧
    canonical_enum_serialize statusDescr 42 = .int 42 := by
  refine ⟨rfl, rfl, rfl, fun n hn => ?_, rfl, rfl, rfl⟩
  simp only [canonical_enum_value_deserialize, if_pos (And.intro hn.1 hn.2)]

/-- C6 (witness): the amended theorem's integer acceptance applied at
the unknown number 42. -/
theorem C6_enum_witness :
    i32wf 42 ∧ canonical_enum_value_deserialize statusDescr (.int 42) = .ok 42 :=
  ⟨⟨by decide, by decide⟩, C6_enum_amended.2.2.2.1 42 ⟨by decide, by decide⟩⟩

/-- C7: the representative message with every field at its default
serializes to the empty JSON object, while an explicitly present
`Optional` value and a set oneof member are emitted even when their
payloads are the kind-zero value. -/
theorem C7_default_elision :
    KitchenSink.encode KitchenSink.init = .obj [] ∧
    KitchenSink.encode { KitchenSink.init with optional_int32 := some 0 } =
      .obj [("optionalInt32", .int 0)] ∧
    KitchenSink.encode { KitchenSink.init with choice := some (.value 0) } =
      .obj [("value", .int 0)] := by
  refine ⟨?_, ?_, ?_⟩ <;> with_unfolding_all rfl

/-- C5: decoding an object carrying two distinct oneof member keys
whose values decode non-null fails with the multiple-oneof error,
while a oneof member key whose value decodes to null is tolerated and
does not activate the group. -/
theorem C5_oneof_uniqueness (j₁ j₂ : Json) (x y : Choice)
    (h1 : Choice.tryDeserialize "name" j₁ = .ok (.matched (some x)))
    (h2 : Choice.tryDeserialize "value" j₂ = .ok (.matched (some y))) :
    KitchenSink.decode (.obj [("name", j₁), ("value", j₂)]) =
      .error "multiple oneof fields set" ∧
    KitchenSink.decode (.obj [("name", .null), ("value", j₂)]) =
      .ok { KitchenSink.init with choice := some y } := by
  constructor
  · simp [KitchenSink.decode, runFields, KitchenSink.decodeStep, Bind.bind, Except.bind,
      h1, h2, KitchenSink.init]
  · simp [KitchenSink.decode, runFields, KitchenSink.decodeStep, Bind.bind, Except.bind,
      show Choice.tryDeserialize "name" Json.null = .ok (.matched none) from rfl,
      h2, KitchenSink.init]

/-- C5 (witness): the theorem applied with a string for the `name`
member and an integer for the `value` member. -/
theorem C5_oneof_uniqueness_witness :
    (Choice.tryDeserialize "name" (.str "hi") = .ok (.matched (some (.name "hi"))) ∧
      Choice.tryDeserialize "value" (.int 7) = .ok (.matched (some (.value 7)))) ∧
    (KitchenSink.decode (.obj [("name", .str "hi"), ("value", .int 7)]) =
        .error "multiple oneof fields set" ∧
      KitchenSink.decode (.obj [("name", .null), ("value", .int 7)]) =
        .ok { KitchenSink.init with choice := some (.value 7) }) :=
  ⟨⟨rfl, rfl⟩, C5_oneof_uniqueness (.str "hi") (.int 7) (.name "hi") (.value 7) rfl rfl⟩

/-- C9: a repeated non-oneof field key decodes without error with the
last occurrence overwriting the earlier one, and likewise a repeated
key inside a map-typed field's object (the `BTreeMap` insert
overwrites). -/
theorem C9_last_wins (a b : Int) (ha : i32wf a) (hb : i32wf b) :
    KitchenSink.decode (.obj [("int32Field", .int a), ("int32Field", .int b)]) =
      .ok { KitchenSink.init with int32_field := b } ∧
    canonical_map_deserialize deserialize_i32 (.obj [("k", .int a), ("k", .int b)]) =
      .ok [("k", b)] := by
  have da : deserialize_i32 (.int a) = .ok a := by simp [deserialize_i32, ha.1, ha.2]
  have db : deserialize_i32 (.int b) = .ok b := by simp [deserialize_i32, hb.1, hb.2]
  have oa : canonical_option_deserialize deserialize_i32 (.int a) = .ok (some a) :=
    canonical_option_deserialize_some (by simp) da
  have ob : canonical_option_deserialize deserialize_i32 (.int b) = .ok (some b) :=
    canonical_option_deserialize_some (by simp) db
  constructor
  · simp only [KitchenSink.decode, runFields, KitchenSink.decodeStep, Bind.bind, Except.bind,
      show ∀ jv, Choice.tryDeserialize "int32Field" jv = .ok .noMatch from fun _ => rfl,
      oa, ob]
  · simp [canonical_map_deserialize, canonical_map_decode_entries, string_from_key,
      Bind.bind, Except.bind, da, db, btreeInsert, lt_self_iff_false]

/-- C9 (witness): the theorem applied at the values 1 then 2. -/
theorem C9_last_wins_witness :
    (i32wf 1 ∧ i32wf 2) ∧
    (KitchenSink.decode (.obj [("int32Field", .int 1), ("int32Field", .int 2)]) =
        .ok { KitchenSink.init with int32_field := 2 } ∧
      canonical_map_deserialize deserialize_i32 (.obj [("k", .int 1), ("k", .int 2)]) =
        .ok [("k", 2)]) :=
  ⟨⟨⟨by decide, by decide⟩, ⟨by decide, by decide⟩⟩,
    C9_last_wins 1 2 ⟨by decide, by decide⟩ ⟨by decide, by decide⟩⟩

/-- C10: lowercase `t`/`z` rejection is a pre-check on the raw string
(any input containing them fails with the corresponding message,
offset or not); a numeric UTC offset such as `+08:00` is accepted and
normalized to UTC, and the 0001–9999 seconds range check runs on the
normalized instant (so `0001-01-01T00:00:00+08:00` is out of range
while the same civil time at `Z` is the minimum allowed). -/
theorem C10_timestamp_offset :
    (∀ s : String, s.data.contains 't' = true →
      parse_timestamp_string s = .error "timestamp must use 'T'") ∧
    (∀ s : String, s.data.contains 't' = false → s.data.contains 'T' = true →
      s.data.contains 'z' = true →
      parse_timestamp_string s = .error "timestamp must use 'Z'") ∧
    parse_timestamp_string "1970-01-01T08:00:00+08:00" = .ok ⟨0, 0⟩ ∧
    parse_timestamp_string "2022-01-01T00:00:00.123+00:00" = .ok ⟨1640995200, 123000000⟩ ∧
    parse_timestamp_string "0001-01-01T00:00:00+08:00" =
      .error "timestamp seconds out of range" ∧
    parse_timestamp_string "0001-01-01T00:00:00Z" = .ok ⟨-62135596800, 0⟩ := by
  refine ⟨fun s ht => ?_, fun s ht hT hz => ?_, ?_, ?_, ?_, ?_⟩
  · have ht' : 't' ∈ s.data := by simpa using ht
    simp [parse_timestamp_string, validate_timestamp_format, ht']
  · have ht' : 't' ∉ s.data := by simpa using ht
    have hT' : 'T' ∈ s.data := by simpa using hT
    have hz' : 'z' ∈ s.data := by simpa using hz
    simp [parse_timestamp_string, validate_timestamp_format, ht', hT', hz']
  · with_unfolding_all rfl
  · with_unfolding_all rfl
  · with_unfolding_all rfl
  · with_unfolding_all rfl

/-- C10 (witness): the pre-check parts of the theorem applied at a
lowercase-`t` input and a lowercase-`z` input. -/
theorem C10_timestamp_offset_witness :
    (("1970-01-01t00:00:00Z" : String).data.contains 't' = true ∧
      parse_timestamp_string "1970-01-01t00:00:00Z" = .error "timestamp must use 'T'") ∧
    (("1970-01-01T00:00:00z" : String).data.contains 't' = false ∧
      ("1970-01-01T00:00:00z" : String).data.contains 'T' = true ∧
      ("1970-01-01T00:00:00z" : String).data.contains 'z' = true ∧
      parse_timestamp_string "1970-01-01T00:00:00z" = .error "timestamp must use 'Z'") :=
  ⟨⟨by decide, C10_timestamp_offset.1 "1970-01-01t00:00:00Z" (by decide)⟩,
    ⟨by decide, by decide, by decide,
      C10_timestamp_offset.2.1 "1970-01-01T00:00:00z" (by decide) (by decide) (by decide)⟩⟩

theorem digitsVal_shift (cs : List Char) (a : Nat) :
    cs.foldl (fun x c => x * 10 + charVal c) a = a * 10 ^ cs.length + digitsVal cs := by
  induction cs generalizing a with
  | nil => simp [digitsVal]
  | cons c rest ih =>
      simp only [List.foldl_cons]
      rw [ih (a * 10 + charVal c)]
      have h2 : digitsVal (c :: rest) = charVal c * 10 ^ rest.length + digitsVal rest := by
        simp only [digitsVal, List.foldl_cons, Nat.zero_mul, Nat.zero_add]
        rw [ih (charVal c)]
        rfl
      rw [h2, List.length_cons, pow_succ]
      ring

theorem digitsVal_lt (cs : List Char) (h : ∀ c ∈ cs, isDigitChar c = true) :
    digitsVal cs < 10 ^ cs.length := by
  induction cs with
  | nil => simp [digitsVal]
  | cons c rest ih =>
      have hc : charVal c ≤ 9 := by
        have hd := h c (by simp)
        simp only [isDigitChar, Bool.and_eq_true, decide_eq_true_eq] at hd
        simp only [charVal]
        omega
      have hrest := ih (fun x hx => h x (by simp [hx]))
      have hshift : digitsVal (c :: rest) = charVal c * 10 ^ rest.length + digitsVal rest := by
        simp only [digitsVal, List.foldl_cons, Nat.zero_mul, Nat.zero_add]
        rw [digitsVal_shift]
        rfl
      have hb : charVal c * 10 ^ rest.length ≤ 9 * 10 ^ rest.length :=
        Nat.mul_le_mul_right _ hc
      rw [hshift, List.length_cons, pow_succ]
      omega

/-- Rust unsigned `FromStr` accepts any nonempty all-digit input whose
value fits the bound, yielding its base-10 value. -/
theorem rustParseU_digits (max : Nat) (cs : List Char) (hne : cs ≠ [])
    (hdig : ∀ c ∈ cs, isDigitChar c = true) (hle : digitsVal cs ≤ max) :
    rustParseU max cs = some (digitsVal cs) := by
  match cs, hne with
  | c :: rest, _ =>
    have hc : isDigitChar c = true := hdig c (by simp)
    have hplus : ¬ (c = '+') := by
      intro hEq
      subst hEq
      exact absurd hc (by decide)
    have hp : parseNatChars (c :: rest) = some (digitsVal (c :: rest)) := by
      simp only [parseNatChars]
      rw [if_pos ⟨by simp, List.all_eq_true.mpr hdig⟩]
    simp only [rustParseU, if_neg hplus, rustParseUCore, hp, if_pos hle]

/-- C8 (counterexample): the fraction branch treats an empty digit
list after the decimal point as zero nanoseconds, so `"1.s"`, which
the claim says is rejected, parses successfully. -/
theorem C8_duration_fraction_counterexample :
    parse_duration_string "1.s" = .ok ⟨1, 0⟩ := rfl

/-- C8 (amended): the Duration parser accepts a fractional part of
any 1 to 9 digits (scaled to nanoseconds by the missing powers of
ten), requires the trailing `s` suffix (`"1.5"` is rejected), rejects
a 10-digit fraction, and accepts the empty fraction `"1.s"` as zero
nanoseconds. -/
theorem C8_duration_fraction_amended (ds : List Char) (hne : ds ≠ [])
    (hlen : ds.length ≤ 9) (hdig : ∀ c ∈ ds, isDigitChar c = true) :
    parse_duration_string (String.mk ('1' :: '.' :: (ds ++ ['s']))) =
      .ok ⟨1, ((digitsVal ds * 10 ^ (9 - ds.length) : Nat) : Int)⟩ ∧
    parse_duration_string "1.5" = .error "duration must end with 's'" ∧
    parse_duration_string "1.0000000000s" = .error "invalid duration fractional" ∧
    parse_duration_string "1.s" = .ok ⟨1, 0⟩ := by
  refine ⟨?_, rfl, rfl, rfl⟩
  have hds_lt : digitsVal ds < 10 ^ ds.length := digitsVal_lt ds hdig
  have hpow : 10 ^ ds.length * 10 ^ (9 - ds.length) = 1000000000 := by
    rw [← pow_add, show ds.length + (9 - ds.length) = 9 by omega]
    norm_num
  have hscale : digitsVal ds * 10 ^ (9 - ds.length) < 1000000000 := by
    calc digitsVal ds * 10 ^ (9 - ds.length)
        < 10 ^ ds.length * 10 ^ (9 - ds.length) :=
          (Nat.mul_lt_mul_right (Nat.pos_pow_of_pos (9 - ds.length) (by norm_num))).mpr hds_lt
      _ = 1000000000 := hpow
  have hmax : digitsVal ds ≤ 4294967295 := by
    have h1 : (10 : Nat) ^ ds.length ≤ 10 ^ 9 := Nat.pow_le_pow_right (by norm_num) hlen
    have h2 : (10 : Nat) ^ 9 = 1000000000 := by norm_num
    omega
  have hru := rustParseU_digits 4294967295 ds hne hdig hmax
  have hrev : ('1' :: '.' :: (ds ++ ['s'])).reverse = 's' :: (ds.reverse ++ ['.', '1']) := by
    simp
  have hsplit : splitFirst (fun c => c = '.') ('1' :: '.' :: ds) = (['1'], some ds) := by
    have h := splitFirst_append (fun c => c = '.') ['1'] ds '.'
      (by intro c hc; simp at hc; subst hc; decide) (by decide)
    simpa using h
  unfold parse_duration_string
  rw [show (String.mk ('1' :: '.' :: (ds ++ ['s']))).data = '1' :: '.' :: (ds ++ ['s'])
    from rfl, hrev]
  simp only [List.reverse_append, List.reverse_reverse, List.reverse_cons, List.reverse_nil,
    List.nil_append, List.cons_append, List.singleton_append]
  rw [if_neg (show ¬('1' :: '.' :: ds = []) from by simp)]
  simp only [List.headI, hsplit,
    show (('1':Char) = '-') = False from by simp,
    if_false,
    show rustParseI (-9223372036854775808) 9223372036854775807 ['1'] = some 1 from by
      with_unfolding_all rfl]
  rw [if_neg (show ¬(ds.length > 9) from by omega), if_neg hne]
  simp only [hru]
  rw [if_neg (show ¬(digitsVal ds * 10 ^ (9 - ds.length) > 4294967295) from by omega),
    if_neg (show ¬(digitsVal ds * 10 ^ (9 - ds.length) > 2147483647) from by omega)]
  simp only []
  rw [if_neg (show ¬((1:Int) < -315576000000 ∨ (1:Int) > 315576000000) from by norm_num)]
  rw [if_neg (show ¬((↑(digitsVal ds * 10 ^ (9 - ds.length)) : Int) ≤ -1000000000 ∨
      (↑(digitsVal ds * 10 ^ (9 - ds.length)) : Int) ≥ 1000000000) from by
    omega)]
  rw [if_neg (show ¬(((1:Int) < 0 ∧ (↑(digitsVal ds * 10 ^ (9 - ds.length)) : Int) > 0) ∨
      ((1:Int) > 0 ∧ (↑(digitsVal ds * 10 ^ (9 - ds.length)) : Int) < 0)) from by
    omega)]

/-- C8 (witness): the amended theorem applied at the two-digit
fraction `"1.12s"`. -/
theorem C8_duration_fraction_witness :
    (['1', '2'] ≠ ([] : List Char) ∧ ['1', '2'].length ≤ 9 ∧
      ∀ c ∈ ['1', '2'], isDigitChar c = true) ∧
    parse_duration_string (String.mk ('1' :: '.' :: (['1', '2'] ++ ['s']))) =
      .ok ⟨1, ((digitsVal ['1', '2'] * 10 ^ (9 - ['1', '2'].length) : Nat) : Int)⟩ :=
  ⟨⟨by decide, by decide, by decide⟩,
    (C8_duration_fraction_amended ['1', '2'] (by decide) (by decide) (by decide)).1⟩

theorem ks_rustEq_self (v : KitchenSink) (h : v.double_field.isNan = false) :
    KitchenSink.rustEq v v = true := by
  have hf : F64.rustEq v.double_field v.double_field = true := by
    cases hv : v.double_field <;> simp_all [F64.rustEq, F64.isNan]
  simp [KitchenSink.rustEq, hf]

set_option maxRecDepth 40000 in
/-- C1 (counterexample): a message holding a NaN double fails the
round-trip equality, because NaN compares unequal to itself under the
Rust `==` the claim is stated with. -/
theorem C1_roundtrip_counterexample :
    ksRoundTripRustEq { KitchenSink.init with double_field := .nan } = false := by
  with_unfolding_all decide

/-- C1 (amended): for every well-formed value of the representative
derived message type, deserializing the serialized canonical JSON
yields the value back structurally, and whenever the double field is
not NaN the Rust `==` round-trip property holds as claimed. -/
theorem C1_roundtrip_amended (v : KitchenSink) (hwf : v.wf) :
    KitchenSink.decode (KitchenSink.encode v) = .ok v ∧
    (v.double_field.isNan = false → ksRoundTripRustEq v = true) := by
  have h := kitchen_sink_roundtrip v hwf
  refine ⟨h, fun hn => ?_⟩
  unfold ksRoundTripRustEq
  rw [h]
  exact ks_rustEq_self v hn

set_option maxRecDepth 40000 in
/-- C1 (witness): the amended theorem applied at the representative
sample value. -/
theorem C1_roundtrip_witness :
    KitchenSink.wf ksSample ∧
    (KitchenSink.decode (KitchenSink.encode ksSample) = .ok ksSample ∧
      (ksSample.double_field.isNan = false → ksRoundTripRustEq ksSample = true)) :=
  have hwf : KitchenSink.wf ksSample := by
    refine ⟨⟨by decide, by decide⟩, ⟨by decide, by decide⟩,
      (show ksSample.uint64_field ≤ 18446744073709551615 by decide), by decide,
      by with_unfolding_all decide, by with_unfolding_all decide, ⟨by decide, by decide⟩,
      ⟨by decide, by decide⟩, ?_, ?_, ?_, trivial, trivial⟩
    · intro x hx
      simp only [ksSample, List.mem_cons, List.not_mem_nil, or_false] at hx
      rcases hx with rfl | rfl <;> exact ⟨by decide, by decide⟩
    · intro p hp
      simp only [ksSample, List.mem_cons, List.not_mem_nil, or_false] at hp
      rcases hp with rfl | rfl <;> exact ⟨by decide, by decide⟩
    · with_unfolding_all decide
  ⟨hwf, C1_roundtrip_amended ksSample hwf⟩
